import Mathlib

/- Shallow embedding of the video_summarizer backend (Python) for specification
   checking.  Python floats are modelled as exact rationals, Python ints as Int,
   Python runtime values as the inductive PyVal, raising as Except.  Each
   definition mirrors one function of the source tree; the file ends with the
   theorems that settle the specification claims. -/

namespace VideoSummarizer

/-- Model of a Python runtime value (the subset the summarizer manipulates:
numbers, strings, booleans, None, lists and string-keyed dicts). -/
inductive PyVal where
  | int : Int → PyVal
  | float : Rat → PyVal
  | str : String → PyVal
  | bool : Bool → PyVal
  | pynone : PyVal
  | list : List PyVal → PyVal
  | dict : List (String × PyVal) → PyVal

/-- The Python exception kinds the embedded code can raise. -/
inductive PyErr where
  | keyError : PyErr
  | valueError : PyErr
  | typeError : PyErr
  | llmClientError : String → PyErr
  deriving DecidableEq

/-- Dict lookup (`d.get(k)` / `d[k]`).  Objects built by this embedding keep
keys unique (see dictInsert), so first match is Python dict semantics. -/
def pyGet (d : List (String × PyVal)) (k : String) : Option PyVal :=
  (d.find? (fun p => p.1 == k)).map (fun p => p.2)

/-- `d[k] = v` on a Python dict: replaces the value in place if the key is
present (keeping its original position), else appends the new key. -/
def dictInsert (d : List (String × PyVal)) (k : String) (v : PyVal) :
    List (String × PyVal) :=
  if d.any (fun p => p.1 == k) then
    d.map (fun p => if p.1 == k then (k, v) else p)
  else
    d ++ [(k, v)]

/-- `base.update(upd)` on Python dicts. -/
def dictUpdate (base upd : List (String × PyVal)) : List (String × PyVal) :=
  upd.foldl (fun acc p => dictInsert acc p.1 p.2) base

/-- Characters stripped by Python `str.strip()` (ASCII fragment). -/
def pyWs (c : Char) : Bool :=
  ([' ', '\t', '\n', '\r', '\x0b', '\x0c'] : List Char).contains c

/-- `str.strip()` on a character list. -/
def pyStripL (cs : List Char) : List Char :=
  ((cs.dropWhile pyWs).reverse.dropWhile pyWs).reverse

/-- `str.rstrip()` on a character list. -/
def pyRstripL (cs : List Char) : List Char :=
  (cs.reverse.dropWhile pyWs).reverse

/-- `str.strip()`. -/
def pyStrip (s : String) : String := ⟨pyStripL s.data⟩

/-- Value of an ASCII decimal digit character. -/
def digitVal (c : Char) : Option Nat :=
  if 48 ≤ c.toNat ∧ c.toNat ≤ 57 then some (c.toNat - 48) else Option.none

/-- Digit character for a value below ten (used by Python decimal formatting). -/
def digitChar (d : Nat) : Char :=
  match d with
  | 0 => '0' | 1 => '1' | 2 => '2' | 3 => '3' | 4 => '4'
  | 5 => '5' | 6 => '6' | 7 => '7' | 8 => '8' | _ => '9'

/-- Decimal representation of a natural number (fuel-driven helper). -/
def natReprAux : Nat → Nat → List Char
  | 0, _ => []
  | fuel + 1, n =>
    if n < 10 then [digitChar n]
    else natReprAux fuel (n / 10) ++ [digitChar (n % 10)]

/-- Decimal representation of a natural number, as Python `str(n)`. -/
def natReprL (n : Nat) : List Char := natReprAux (n + 1) n

/-- Fold a list of digit values into a natural number. -/
def digitsToNat (ds : List Nat) : Nat := ds.foldl (fun a d => 10 * a + d) 0

/-- Python `int(s)` for a string: optional surrounding whitespace, optional
sign, then decimal digits (numeric-literal underscores are out of scope). -/
def pyIntOfStr (s : String) : Except PyErr Int :=
  let cs := pyStripL s.data
  let (sign, cs) : Int × List Char :=
    match cs with
    | '-' :: rest => (-1, rest)
    | '+' :: rest => (1, rest)
    | rest => (1, rest)
  if cs ≠ [] ∧ cs.all (fun c => (digitVal c).isSome) then
    .ok (sign * (digitsToNat (cs.filterMap digitVal) : Int))
  else
    .error .valueError

/-- Python `float(s)` for a string: optional sign, digits with an optional
fractional part (exponents and inf/nan are out of the claims' scope). -/
def pyFloatOfStr (s : String) : Except PyErr Rat :=
  let cs := pyStripL s.data
  let (sign, cs) : Rat × List Char :=
    match cs with
    | '-' :: rest => (-1, rest)
    | '+' :: rest => (1, rest)
    | rest => (1, rest)
  let ip := cs.takeWhile (fun c => (digitVal c).isSome)
  let rest := cs.dropWhile (fun c => (digitVal c).isSome)
  match rest with
  | [] =>
    if ip ≠ [] then .ok (sign * (digitsToNat (ip.filterMap digitVal) : Rat))
    else .error .valueError
  | '.' :: frest =>
    let fp := frest.takeWhile (fun c => (digitVal c).isSome)
    if (ip ≠ [] ∨ fp ≠ []) ∧ frest.dropWhile (fun c => (digitVal c).isSome) = [] then
      .ok (sign * ((digitsToNat (ip.filterMap digitVal) : Rat) +
        (digitsToNat (fp.filterMap digitVal) : Rat) / (10 : Rat) ^ fp.length))
    else .error .valueError
  | _ => .error .valueError

/-- Truncation toward zero, the behaviour of Python `int()` on a float. -/
def ratTrunc (q : Rat) : Int := if 0 ≤ q then ⌊q⌋ else ⌈q⌉

/-- Python `float(v)`: floats pass through, ints widen, numeric strings are
parsed, booleans coerce; other values raise TypeError. -/
def pyFloat : PyVal → Except PyErr Rat
  | .float r => .ok r
  | .int n => .ok (n : Rat)
  | .bool b => .ok (if b then 1 else 0)
  | .str s => pyFloatOfStr s
  | _ => .error .typeError

/-- Python `int(v)`: ints pass through, floats truncate toward zero, numeric
strings are parsed, booleans coerce; other values raise TypeError. -/
def pyInt : PyVal → Except PyErr Int
  | .int n => .ok n
  | .float r => .ok (ratTrunc r)
  | .bool b => .ok (if b then 1 else 0)
  | .str s => pyIntOfStr s
  | _ => .error .typeError

/- ---------------------------------------------------------------------------
src/video_summarizer/llm/models.py
--------------------------------------------------------------------------- -/

/-- The Clip dataclass of llm/models.py.  `start`/`end` are floats (from_dict
coerces them with float()), `importance` an int; `title`/`description` are
stored as whatever value the candidate dict carried (Python does not check
their type), so they are modelled as raw PyVal. -/
structure Clip where
  start : Rat
  «end» : Rat
  title : PyVal
  description : PyVal
  importance : Int

/-- Clip.duration: `end - start`. -/
def Clip.duration (c : Clip) : Rat := c.«end» - c.start

/-- Clip.to_dict: serialization including the derived `duration` key. -/
def Clip.to_dict (c : Clip) : List (String × PyVal) :=
  [("start", .float c.start), ("end", .float c.«end»), ("title", c.title),
   ("description", c.description), ("importance", .int c.importance),
   ("duration", .float c.duration)]

/-- Clip.from_dict: `data["start"]`/`data["end"]` (KeyError when missing)
through float(), `title`/`description` defaulted, `importance` through int()
with default 5.  No bounds check is applied to any field. -/
def Clip.from_dict (data : List (String × PyVal)) : Except PyErr Clip := do
  let sv ← match pyGet data "start" with
    | some v => Except.ok v
    | Option.none => Except.error .keyError
  let s ← pyFloat sv
  let ev ← match pyGet data "end" with
    | some v => Except.ok v
    | Option.none => Except.error .keyError
  let e ← pyFloat ev
  let t := (pyGet data "title").getD (.str "Untitled")
  let d := (pyGet data "description").getD (.str "")
  let i ← pyInt ((pyGet data "importance").getD (.int 5))
  Except.ok { start := s, «end» := e, title := t, description := d, importance := i }

/- ---------------------------------------------------------------------------
Model of Python json.loads (strict mode), as used by llm/client.py
--------------------------------------------------------------------------- -/

/-- JSON whitespace (the set skipped by the CPython json scanner). -/
def jsonWsL (c : Char) : Bool := ([' ', '\t', '\n', '\r'] : List Char).contains c

/-- Skip JSON whitespace. -/
def skipWs (cs : List Char) : List Char := cs.dropWhile jsonWsL

/-- Value of a hexadecimal digit. -/
def hexVal (c : Char) : Option Nat :=
  if 97 ≤ c.toNat ∧ c.toNat ≤ 102 then some (c.toNat - 87)
  else if 65 ≤ c.toNat ∧ c.toNat ≤ 70 then some (c.toNat - 55)
  else digitVal c

/-- Single-character JSON escapes. -/
def escMap (c : Char) : Option Char :=
  match c with
  | '"' => some '"' | '\\' => some '\\' | '/' => some '/'
  | 'b' => some '\x08' | 'f' => some '\x0c' | 'n' => some '\n'
  | 'r' => some '\r' | 't' => some '\t' | _ => Option.none

/-- Body of a JSON string after the opening quote: returns the decoded
characters and the remainder after the closing quote.  Strict mode: raw
control characters are rejected; surrogate pairs are combined (lone
surrogates are not representable as Lean Chars and are rejected). -/
def parseStrBody : List Char → Option (List Char × List Char)
  | [] => Option.none
  | c :: rest =>
    if c == '"' then some ([], rest)
    else if c == '\\' then
      match rest with
      | [] => Option.none
      | e :: rest' =>
        if e == 'u' then
          match rest' with
          | a :: b :: c2 :: d :: rest'' =>
            match hexVal a, hexVal b, hexVal c2, hexVal d with
            | some ha, some hb, some hc, some hd =>
              let n := ((ha * 16 + hb) * 16 + hc) * 16 + hd
              if 0xD800 ≤ n ∧ n ≤ 0xDBFF then
                match rest'' with
                | s1 :: s2 :: a2 :: b2 :: c3 :: d2 :: rest3 =>
                  if s1 == '\\' ∧ s2 == 'u' then
                    match hexVal a2, hexVal b2, hexVal c3, hexVal d2 with
                    | some ha2, some hb2, some hc2, some hd2 =>
                      let n2 := ((ha2 * 16 + hb2) * 16 + hc2) * 16 + hd2
                      if 0xDC00 ≤ n2 ∧ n2 ≤ 0xDFFF then
                        (parseStrBody rest3).map (fun p =>
                          (Char.ofNat (0x10000 + (n - 0xD800) * 0x400 + (n2 - 0xDC00)) :: p.1, p.2))
                      else Option.none
                    | _, _, _, _ => Option.none
                  else Option.none
                | _ => Option.none
              else if 0xDC00 ≤ n ∧ n ≤ 0xDFFF then Option.none
              else (parseStrBody rest'').map (fun p => (Char.ofNat n :: p.1, p.2))
            | _, _, _, _ => Option.none
          | _ => Option.none
        else
          match escMap e with
          | some d => (parseStrBody rest').map (fun p => (d :: p.1, p.2))
          | Option.none => Option.none
    else if c.toNat < 32 then Option.none
    else (parseStrBody rest).map (fun p => (c :: p.1, p.2))

/-- JSON number, following the json module's NUMBER_RE
`(-?(?:0|[1-9]\d*))(\.\d+)?([eE][-+]?\d+)?`: an integer-only literal becomes a
Python int, otherwise a float.  Returns the value and the unconsumed rest. -/
def parseNum (cs : List Char) : Option (PyVal × List Char) :=
  let (sign, cs1) : Int × List Char :=
    match cs with
    | '-' :: r => (-1, r)
    | r => (1, r)
  match cs1 with
  | [] => Option.none
  | c0 :: tl0 =>
    if (digitVal c0).isNone then Option.none else
    let ipD : List Nat :=
      if c0 == '0' then [0]
      else (cs1.takeWhile (fun c => (digitVal c).isSome)).filterMap digitVal
    let rest1 : List Char :=
      if c0 == '0' then tl0 else cs1.dropWhile (fun c => (digitVal c).isSome)
    let fracPart : Option (List Nat × List Char) :=
      match rest1 with
      | '.' :: fr =>
        let fd := fr.takeWhile (fun c => (digitVal c).isSome)
        if fd = [] then Option.none
        else some (fd.filterMap digitVal, fr.dropWhile (fun c => (digitVal c).isSome))
      | _ => Option.none
    let rest2 : List Char := match fracPart with
      | some p => p.2
      | Option.none => rest1
    let expPart : Option (Int × List Char) :=
      match rest2 with
      | e :: er =>
        if e == 'e' || e == 'E' then
          let (esign, er1) : Int × List Char :=
            match er with
            | '-' :: r => (-1, r)
            | '+' :: r => (1, r)
            | r => (1, r)
          let ed := er1.takeWhile (fun c => (digitVal c).isSome)
          if ed = [] then Option.none
          else some (esign * (digitsToNat (ed.filterMap digitVal) : Int),
                     er1.dropWhile (fun c => (digitVal c).isSome))
        else Option.none
      | [] => Option.none
    let rest3 : List Char := match expPart with
      | some p => p.2
      | Option.none => rest2
    match fracPart, expPart with
    | Option.none, Option.none => some (.int (sign * (digitsToNat ipD : Int)), rest1)
    | _, _ =>
      let fd : List Nat := match fracPart with
        | some p => p.1
        | Option.none => []
      let ex : Int := match expPart with
        | some p => p.1
        | Option.none => 0
      let mant : Rat := (sign : Rat) * ((digitsToNat ipD : Rat) +
        (digitsToNat fd : Rat) / (10 : Rat) ^ fd.length)
      some (.float (mant * (10 : Rat) ^ ex), rest3)

mutual

/-- JSON value at the head of the input (whitespace skipped first). -/
def parseVal : Nat → List Char → Option (PyVal × List Char)
  | 0, _ => Option.none
  | fuel + 1, cs =>
    match skipWs cs with
    | [] => Option.none
    | c :: rest =>
      if c == '"' then (parseStrBody rest).map (fun p => (.str ⟨p.1⟩, p.2))
      else if c == '\x7b' then parseObj fuel (skipWs rest)
      else if c == '[' then parseArr fuel (skipWs rest)
      else if c == 't' then
        match rest with
        | 'r' :: 'u' :: 'e' :: r => some (.bool true, r)
        | _ => Option.none
      else if c == 'f' then
        match rest with
        | 'a' :: 'l' :: 's' :: 'e' :: r => some (.bool false, r)
        | _ => Option.none
      else if c == 'n' then
        match rest with
        | 'u' :: 'l' :: 'l' :: r => some (.pynone, r)
        | _ => Option.none
      else parseNum (c :: rest)

/-- JSON array after the opening bracket (whitespace already skipped). -/
def parseArr : Nat → List Char → Option (PyVal × List Char)
  | 0, _ => Option.none
  | fuel + 1, cs =>
    match cs with
    | ']' :: r => some (.list [], r)
    | _ => (parseArrItems fuel cs).map (fun p => (.list p.1, p.2))

/-- Comma-separated JSON array elements up to the closing bracket. -/
def parseArrItems : Nat → List Char → Option (List PyVal × List Char)
  | 0, _ => Option.none
  | fuel + 1, cs => do
    let (v, r) ← parseVal fuel cs
    match skipWs r with
    | ',' :: r2 => do
      let (xs, r3) ← parseArrItems fuel (skipWs r2)
      some (v :: xs, r3)
    | ']' :: r2 => some ([v], r2)
    | _ => Option.none

/-- JSON object after the opening brace (whitespace already skipped).
Members are folded into a Python dict: a repeated key keeps its first
position and its last value. -/
def parseObj : Nat → List Char → Option (PyVal × List Char)
  | 0, _ => Option.none
  | fuel + 1, cs =>
    match cs with
    | '\x7d' :: r => some (.dict [], r)
    | _ => (parseObjItems fuel cs).map (fun p =>
        (.dict (p.1.foldl (fun acc q => dictInsert acc q.1 q.2) []), p.2))

/-- Comma-separated JSON object members up to the closing brace. -/
def parseObjItems : Nat → List Char → Option (List (String × PyVal) × List Char)
  | 0, _ => Option.none
  | fuel + 1, cs =>
    match cs with
    | '"' :: r => do
      let (k, r1) ← parseStrBody r
      match skipWs r1 with
      | ':' :: r2 => do
        let (v, r3) ← parseVal fuel (skipWs r2)
        match skipWs r3 with
        | ',' :: r4 => do
          let (ps, r5) ← parseObjItems fuel (skipWs r4)
          some ((⟨k⟩, v) :: ps, r5)
        | '\x7d' :: r4 => some ([(⟨k⟩, v)], r4)
        | _ => Option.none
      | _ => Option.none
    | _ => Option.none

end

/-- `json.loads` on a character list: the whole input must be one JSON value
surrounded only by whitespace; `Option.none` models json.JSONDecodeError. -/
def jsonLoadsL (cs : List Char) : Option PyVal :=
  let cs1 := skipWs cs
  match parseVal (3 * cs1.length + 3) cs1 with
  | some (v, rest) => if skipWs rest = [] then some v else Option.none
  | Option.none => Option.none

/-- `json.loads` on a string. -/
def jsonLoads (s : String) : Option PyVal := jsonLoadsL s.data

/- ---------------------------------------------------------------------------
src/video_summarizer/llm/client.py: _parse_json_response and
_try_fix_incomplete_json.  The four regex patterns of json_patterns and the
brace scan are modelled as explicit search functions with Python re
semantics (leftmost match, greedy/lazy quantifiers with backtracking).
--------------------------------------------------------------------------- -/

/-- Python regex `\s` (ASCII fragment). -/
def reWs (c : Char) : Bool := pyWs c

/-- Index of the first occurrence of `pat` in `cs`, scanning left to right. -/
def findSub (pat : List Char) : List Char → Option Nat
  | [] => if pat = [] then some 0 else Option.none
  | c :: rest =>
    if pat.isPrefixOf (c :: rest) then some 0
    else (findSub pat rest).map (· + 1)

/-- Index of the last occurrence of `pat` in `cs` (Python str.rfind, with
Option.none for -1). -/
def rfindSub (pat : List Char) (cs : List Char) : Option Nat :=
  ((List.range (cs.length + 1)).filter
    (fun j => pat.isPrefixOf (cs.drop j))).getLast?

/-- Whether `pat` occurs in `cs` (Python `pat in s`). -/
def containsSub (pat cs : List Char) : Bool := (findSub pat cs).isSome

/-- The suffixes of `run` that start right after each of its newline
characters, rightmost newline first (the backtracking order of a greedy
`\s*` that must end by matching `\n`). -/
def nlSuffixes (run : List Char) : List (List Char) :=
  (List.range run.length).reverse.filterMap
    (fun j => if run.get? j = some '\n' then some (run.drop (j + 1)) else Option.none)

/-- First Option.some produced by `f` over `xs`. -/
def firstSome {α β : Type} (f : α → Option β) : List α → Option β
  | [] => Option.none
  | x :: xs =>
    match f x with
    | some r => some r
    | Option.none => firstSome f xs

/-- Match attempt for one fence pattern at a position right after the opening
token: `\s*\n` picks a newline inside the whitespace run (greedy, so the
rightmost newline is preferred); with `needClose` the lazy `([\s\S]*?)\n³`
takes the content up to the first close marker, otherwise the greedy
`([\s\S]*)` takes everything to the end. -/
def fenceAt (needClose : Bool) (rest : List Char) : Option (List Char) :=
  let run := rest.takeWhile reWs
  let post := rest.dropWhile reWs
  if needClose then
    firstSome (fun suf =>
      let content := suf ++ post
      (findSub ('\n' :: '`' :: '`' :: '`' :: []) content).map content.take)
      (nlSuffixes run)
  else
    match nlSuffixes run with
    | suf :: _ => some (suf ++ post)
    | [] => Option.none

/-- re.search of one fence pattern: scan for the opening token, try the rest
of the pattern there, continue scanning on failure.  Returns group(1). -/
def searchFence (tok : List Char) (needClose : Bool) : List Char → Option (List Char)
  | [] => Option.none
  | c :: rest =>
    if tok.isPrefixOf (c :: rest) then
      match fenceAt needClose ((c :: rest).drop tok.length) with
      | some r => some r
      | Option.none => searchFence tok needClose rest
    else searchFence tok needClose rest

/-- `re.sub(r'³\s*$', '', json_str)` for an already stripped string: drop a
trailing close-fence marker. -/
def stripTrailingFence (cs : List Char) : List Char :=
  if ('`' :: '`' :: '`' :: []).isSuffixOf cs then cs.dropLast.dropLast.dropLast else cs

/-- _try_fix_incomplete_json: truncate a clips/key_points payload back to its
last complete element, then close an odd quote and any unclosed brackets and
braces (brackets before braces). -/
def tryFixIncompleteJson (jsonStr : List Char) : List Char :=
  let fixed := pyRstripL jsonStr
  let fixed :=
    if containsSub ("\"clips\":".data) fixed || containsSub ("\"key_points\":".data) fixed then
      let lastComplete :=
        match rfindSub ('\x7d' :: ',' :: []) fixed with
        | some j => some j
        | Option.none => rfindSub ('"' :: '\x7d' :: ',' :: []) fixed
      match lastComplete with
      | some j => if 0 < j then fixed.take (j + 1) else fixed
      | Option.none => fixed
    else fixed
  let openBraces : Int := (fixed.count '\x7b' : Int) - (fixed.count '\x7d' : Int)
  let openBrackets : Int := (fixed.count '[' : Int) - (fixed.count ']' : Int)
  let fixed :=
    match fixed.getLast? with
    | some c =>
      if c ≠ '"' ∧ c ≠ ',' ∧ c ≠ '\x7d' ∧ c ≠ ']' then
        if fixed.count '"' % 2 = 1 then fixed ++ ['"'] else fixed
      else fixed
    | Option.none => fixed
  let fixed := if 0 < openBrackets then fixed ++ List.replicate openBrackets.toNat ']' else fixed
  let fixed := if 0 < openBraces then fixed ++ List.replicate openBraces.toNat '\x7d' else fixed
  fixed

/-- One iteration of the json_patterns loop: on a regex match, strip the
captured group, drop a trailing fence, try a strict parse, then the repair
path; Option.none lets the loop move to the next pattern. -/
def tryPattern (response : List Char) (pat : List Char × Bool) : Option PyVal :=
  match searchFence pat.1 pat.2 response with
  | Option.none => Option.none
  | some captured =>
    let jsonStr := pyStripL captured
    let jsonStr := pyStripL (stripTrailingFence jsonStr)
    match jsonLoadsL jsonStr with
    | some v => some v
    | Option.none =>
      let fixed := tryFixIncompleteJson jsonStr
      if fixed ≠ [] then jsonLoadsL fixed else Option.none

/-- The json_patterns list of _parse_json_response, in attempt order. -/
def jsonPatterns : List (List Char × Bool) :=
  [("```json".data, true), ("```".data, true), ("```json".data, false), ("```".data, false)]

/-- `re.search(r'\{[\s\S]*\}', response)`: the span from the first opening
brace to the last closing brace, when the latter comes after the former. -/
def braceScan (cs : List Char) : Option (List Char) :=
  match findSub ('\x7b' :: []) cs, rfindSub ('\x7d' :: []) cs with
  | some i, some j => if i < j then some ((cs.drop i).take (j - i + 1)) else Option.none
  | _, _ => Option.none

/-- _parse_json_response: strip, direct parse, fenced-block strategies,
brace-scan strategy with repair, else LLMClientError carrying the first 500
characters of the response. -/
def parseJsonResponse (response : String) : Except PyErr PyVal :=
  let resp := pyStripL response.data
  match jsonLoadsL resp with
  | some v => .ok v
  | Option.none =>
    match firstSome (tryPattern resp) jsonPatterns with
    | some v => .ok v
    | Option.none =>
      let fallback : Except PyErr PyVal :=
        .error (.llmClientError ("Failed to parse JSON from response: " ++
          String.mk (resp.take 500)))
      match braceScan resp with
      | some sub =>
        match jsonLoadsL sub with
        | some v => .ok v
        | Option.none =>
          let fixed := tryFixIncompleteJson sub
          if fixed ≠ [] then
            match jsonLoadsL fixed with
            | some v => .ok v
            | Option.none => fallback
          else fallback
      | Option.none => fallback

/- ---------------------------------------------------------------------------
src/video_summarizer/llm/summarizer.py: VideoSummarizer.extract_clips, the
post-LLM normalization of clip candidates (construction, duration clamp,
importance ranking, selection).
--------------------------------------------------------------------------- -/

/-- The duration filter/clamp applied to one constructed clip inside the
extract_clips loop.  The three Python branches are kept verbatim: within
bounds append unchanged, short clips are extended to start + min_duration,
long clips truncated to start + max_duration; a candidate matching none of
the branches would fall through without being appended (Option.none). -/
def clampClip (min_duration max_duration : Rat) (clip : Clip) : Option Clip :=
  if min_duration ≤ clip.duration ∧ clip.duration ≤ max_duration then
    some clip
  else if clip.duration < min_duration then
    some { clip with «end» := clip.start + min_duration }
  else if max_duration < clip.duration then
    some { clip with «end» := clip.start + max_duration }
  else
    Option.none

/-- One candidate of the extract_clips loop: Clip.from_dict on a raw mapping
followed by the duration clamp.  Non-dict candidates raise TypeError, which
the loop does not catch. -/
def clipCandidate (min_duration max_duration : Rat) (clip_data : PyVal) :
    Except PyErr (Option Clip) :=
  match clip_data with
  | .dict d => (Clip.from_dict d).map (clampClip min_duration max_duration)
  | _ => .error .typeError

/-- The extract_clips candidate loop: KeyError and ValueError skip the
candidate, every other exception propagates. -/
def collectClips (min_duration max_duration : Rat) : List PyVal → Except PyErr (List Clip)
  | [] => .ok []
  | cd :: rest =>
    match clipCandidate min_duration max_duration cd with
    | .ok (some c) => (collectClips min_duration max_duration rest).map (c :: ·)
    | .ok Option.none => collectClips min_duration max_duration rest
    | .error .keyError => collectClips min_duration max_duration rest
    | .error .valueError => collectClips min_duration max_duration rest
    | .error e => .error e

/-- Stable insertion into a list kept in descending importance order: the new
clip goes in front of the first element it is at least as important as, so
that among equal importances the earlier-inserted (earlier-extracted) clip
stays first. -/
def insertClipDesc (a : Clip) : List Clip → List Clip
  | [] => [a]
  | b :: bs =>
    if b.importance ≤ a.importance then a :: b :: bs
    else b :: insertClipDesc a bs

/-- `clips.sort(key=lambda c: c.importance, reverse=True)`: Python's sort is
stable also with reverse=True, so it is extensionally the unique permutation
that is descending on importance and keeps the original order of ties;
insertion sort with insertClipDesc computes exactly that permutation. -/
def sortClipsDesc (clips : List Clip) : List Clip :=
  clips.foldr insertClipDesc []

/-- Ranking and selection tail of extract_clips: sort by importance
descending (stable) and return the first num_clips. -/
def rankSelect (clips : List Clip) (num_clips : Nat) : List Clip :=
  (sortClipsDesc clips).take num_clips

/-- VideoSummarizer.extract_clips, from the parsed LLM response onward:
`response.get("clips", [])`, the candidate loop, the stable descending sort
and the `[:num_clips]` selection. -/
def extract_clips (response : PyVal) (num_clips : Nat)
    (min_duration max_duration : Rat) : Except PyErr (List Clip) :=
  match response with
  | .dict d =>
    match (pyGet d "clips").getD (.list []) with
    | .list raw_clips =>
      (collectClips min_duration max_duration raw_clips).map (rankSelect · num_clips)
    | _ => .error .typeError
  | _ => .error .typeError

/- ---------------------------------------------------------------------------
src/video_summarizer/transcription/srt_formatter.py
--------------------------------------------------------------------------- -/

/-- The TranscriptionSegment dataclass of transcription/transcriber.py. -/
structure TranscriptionSegment where
  start : Rat
  «end» : Rat
  text : String

/-- Python float `a % b` for positive b: `a - b * (a // b)`. -/
def pymod (a b : Rat) : Rat := a - b * ⌊a / b⌋

/-- Zero-padded decimal with width 2 (`f"{n:02d}"` for a non-negative int). -/
def pad2 (n : Nat) : List Char :=
  if n < 10 then '0' :: natReprL n else natReprL n

/-- Zero-padded decimal with width 3 (`f"{n:03d}"` for a non-negative int). -/
def pad3 (n : Nat) : List Char :=
  if n < 10 then '0' :: '0' :: natReprL n
  else if n < 100 then '0' :: natReprL n
  else natReprL n

/-- format_timestamp: seconds to `HH:MM:SS,mmm`, clamping negatives to 0. -/
def format_timestamp (seconds : Rat) : List Char :=
  let s := if seconds < 0 then 0 else seconds
  let hours := (⌊s / 3600⌋).toNat
  let minutes := (⌊pymod s 3600 / 60⌋).toNat
  let secs := (⌊pymod s 60⌋).toNat
  let milliseconds := (⌊pymod s 1 * 1000⌋).toNat
  pad2 hours ++ ':' :: pad2 minutes ++ ':' :: pad2 secs ++ ',' :: pad3 milliseconds

/-- format_segment_as_srt: `f"{index}\n{start_ts} --> {end_ts}\n{text}\n"`. -/
def format_segment_as_srt (index : Nat) (segment : TranscriptionSegment) : List Char :=
  natReprL index ++ '\n' :: format_timestamp segment.start ++
    ' ' :: '-' :: '-' :: '>' :: ' ' :: format_timestamp segment.«end» ++
    '\n' :: segment.text.data ++ ['\n']

/-- The `enumerate(segments, start=1)` loop of format_as_srt. -/
def srtEntries : Nat → List TranscriptionSegment → List (List Char)
  | _, [] => []
  | i, seg :: rest => format_segment_as_srt i seg :: srtEntries (i + 1) rest

/-- format_as_srt: entries joined with a single newline (each entry already
ends in one, so consecutive entries are separated by a blank line). -/
def format_as_srt (segments : List TranscriptionSegment) : String :=
  ⟨List.intercalate ['\n'] (srtEntries 1 segments)⟩

/-- Worker for `re.split(r'\n\n+', _)`: `cur` is the piece being accumulated
and `nl` the length of the pending newline run. -/
def splitNl2Go : List Char → Nat → List Char → List (List Char)
  | cur, nl, [] => if 2 ≤ nl then [cur, []] else [cur ++ List.replicate nl '\n']
  | cur, nl, c :: rest =>
    if c = '\n' then splitNl2Go cur (nl + 1) rest
    else if 2 ≤ nl then cur :: splitNl2Go [c] 0 rest
    else splitNl2Go (cur ++ List.replicate nl '\n' ++ [c]) 0 rest

/-- `re.split(r'\n\n+', s)`: split on maximal runs of two or more newlines. -/
def splitNl2 (cs : List Char) : List (List Char) := splitNl2Go [] 0 cs

/-- Python `s.split('\n')`. -/
def splitCharNl : List Char → List (List Char)
  | [] => [[]]
  | c :: rest =>
    if c = '\n' then [] :: splitCharNl rest
    else
      match splitCharNl rest with
      | p :: ps => (c :: p) :: ps
      | [] => [[c]]

/-- Two decimal digits. -/
def parse2 : List Char → Option (Nat × List Char)
  | c1 :: c2 :: rest =>
    match digitVal c1, digitVal c2 with
    | some a, some b => some (10 * a + b, rest)
    | _, _ => Option.none
  | _ => Option.none

/-- Three decimal digits. -/
def parse3 : List Char → Option (Nat × List Char)
  | c1 :: c2 :: c3 :: rest =>
    match digitVal c1, digitVal c2, digitVal c3 with
    | some a, some b, some c => some (100 * a + 10 * b + c, rest)
    | _, _, _ => Option.none
  | _ => Option.none

/-- Consume one expected character. -/
def expectChar (c : Char) : List Char → Option (List Char)
  | d :: rest => if d = c then some rest else Option.none
  | [] => Option.none

/-- One `(\d{2}):(\d{2}):(\d{2}),(\d{3})` timestamp group. -/
def parseTsOne (cs : List Char) : Option ((Nat × Nat × Nat × Nat) × List Char) := do
  let (h, r1) ← parse2 cs
  let r2 ← expectChar ':' r1
  let (m, r3) ← parse2 r2
  let r4 ← expectChar ':' r3
  let (s, r5) ← parse2 r4
  let r6 ← expectChar ',' r5
  let (ms, r7) ← parse3 r6
  some ((h, m, s, ms), r7)

/-- re.match of the timestamp-line pattern of parse_srt (anchored at the
start, trailing characters ignored). -/
def matchTimestampLine (cs : List Char) :
    Option ((Nat × Nat × Nat × Nat) × (Nat × Nat × Nat × Nat)) := do
  let (t1, r1) ← parseTsOne cs
  let r2 := r1.dropWhile reWs
  let r3 ← expectChar '-' r2
  let r4 ← expectChar '-' r3
  let r5 ← expectChar '>' r4
  let r6 := r5.dropWhile reWs
  let (t2, _) ← parseTsOne r6
  some (t1, t2)

/-- Seconds value reconstructed by parse_srt from one timestamp group. -/
def tsToSeconds (t : Nat × Nat × Nat × Nat) : Rat :=
  (t.1 : Rat) * 3600 + (t.2.1 : Rat) * 60 + (t.2.2.1 : Rat) + (t.2.2.2 : Rat) / 1000

/-- The body of the parse_srt entry loop: strip the entry, split it into
lines, skip entries of fewer than three lines or with an unparsable second
line, and rebuild a segment whose text is the remaining lines rejoined. -/
def parseSrtEntry (entry : List Char) : Option TranscriptionSegment :=
  let lines := splitCharNl (pyStripL entry)
  if lines.length < 3 then Option.none
  else
    match lines.get? 1 with
    | some tsline =>
      match matchTimestampLine tsline with
      | some (t1, t2) =>
        some { start := tsToSeconds t1, «end» := tsToSeconds t2,
               text := ⟨List.intercalate ['\n'] (lines.drop 2)⟩ }
      | Option.none => Option.none
    | Option.none => Option.none

/-- parse_srt: strip, split entries on blank lines, parse each entry. -/
def parse_srt (content : String) : List TranscriptionSegment :=
  (splitNl2 (pyStripL content.data)).filterMap parseSrtEntry

/-- The timestamp line of one formatted SRT entry. -/
def tsLine (seg : TranscriptionSegment) : List Char :=
  format_timestamp seg.start ++ ' ' :: '-' :: '-' :: '>' :: ' ' :: format_timestamp seg.«end»

/-- One formatted SRT entry without its trailing newline. -/
def entryCore (i : Nat) (seg : TranscriptionSegment) : List Char :=
  natReprL i ++ '\n' :: tsLine seg ++ '\n' :: seg.text.data

/-- entryCore of each segment, indices counting up from i. -/
def coresFrom : Nat → List TranscriptionSegment → List (List Char)
  | _, [] => []
  | i, seg :: rest => entryCore i seg :: coresFrom (i + 1) rest

/-- Text conditions under which an SRT entry survives the round trip:
non-empty, single-line, no leading or trailing whitespace. -/
def okText (cs : List Char) : Bool :=
  match cs, cs.getLast? with
  | c :: _, some d => !pyWs c && !pyWs d && cs.all (fun x => x != '\n')
  | _, _ => false

/-- Segment validity for the amended round-trip claim: well-behaved text and
timestamps representable with two-digit hour fields. -/
def validSegB (seg : TranscriptionSegment) : Bool :=
  okText seg.text.data && decide (0 ≤ seg.start) && decide (seg.start < 360000) &&
    decide (0 ≤ seg.«end») && decide (seg.«end» < 360000) &&
    decide (seg.start ≤ seg.«end»)

/- ---------------------------------------------------------------------------
src/video_summarizer/llm/clip_extractor.py: extract_clip / extract_clips.
The ffmpeg invocation is modelled by a per-invocation oracle; everything
around it (existence check, filename construction, the per-clip try/except)
is translated from the source.
--------------------------------------------------------------------------- -/

/-- Errors of the clip-cutting stage: the uncaught FileNotFoundError for a
missing source video, ClipExtractionError for a failed ffmpeg run, and
TypeError for iterating a non-string title. -/
inductive MediaErr where
  | fileNotFound : MediaErr
  | clipExtractionError : MediaErr
  | typeError : MediaErr
  deriving DecidableEq

/-- Outcome of one ffmpeg invocation (the external subprocess). -/
inductive CutOutcome where
  | ok : CutOutcome
  | ffmpegFail : CutOutcome
  deriving DecidableEq

/-- ASCII fragment of Python str.isalnum. -/
def isalnumAscii (c : Char) : Bool := c.isAlpha || c.isDigit

/-- The title sanitization of the extract_clips loop on a string title:
`"".join(c if c.isalnum() or c in "._- " else "_" for c in clip.title).strip()[:50]`. -/
def sanitizeTitleStr (s : String) : List Char :=
  (pyStripL (s.data.map (fun c =>
    if isalnumAscii c || c == '.' || c == '_' || c == '-' || c == ' ' then c
    else '_'))).take 50

/-- Title sanitization on the raw title value: iterating a non-string title
raises TypeError. -/
def sanitizeTitle (title : PyVal) : Except MediaErr (List Char) :=
  match title with
  | .str s => .ok (sanitizeTitleStr s)
  | _ => .error .typeError

/-- Whether a Clip's title is a Python str (the declared type of the field). -/
def isStrTitle (c : Clip) : Bool :=
  match c.title with
  | .str _ => true
  | _ => false

/-- `Path(p).suffix`: the extension of the final path component. -/
def pathSuffix (p : List Char) : List Char :=
  let base := match rfindSub ['/'] p with
    | some j => p.drop (j + 1)
    | Option.none => p
  match rfindSub ['.'] base with
  | some j => if j = 0 then [] else base.drop j
  | Option.none => []

/-- extract_clip: existence check, then the ffmpeg run (oracle); a failed run
raises ClipExtractionError, a successful one returns the output path. -/
def extract_clip (videoExists : Bool) (outcome : CutOutcome) (output_path : String) :
    Except MediaErr String :=
  if videoExists then
    match outcome with
    | .ok => .ok output_path
    | .ffmpegFail => .error .clipExtractionError
  else .error .fileNotFound

/-- Output path of clip number `i` (0-based loop index): the default template
`clip_{index:02d}_{title}` with the source extension, under output_dir. -/
def clipOutputPath (video_path output_dir : String) (i : Nat) (safeTitle : List Char) :
    String :=
  ⟨output_dir.data ++ '/' :: ("clip_".data ++ pad2 (i + 1) ++ '_' :: safeTitle ++
    pathSuffix video_path.data)⟩

/-- The extract_clips loop of clip_extractor.py: per clip, sanitize the title,
build the output path and cut; ClipExtractionError is caught and the loop
continues, every other exception propagates.  Returns the paths of the
successfully cut clips. -/
def extractClipsBatchGo (videoExists : Bool) (outcomes : Nat → CutOutcome)
    (video_path output_dir : String) : Nat → List Clip → Except MediaErr (List String)
  | _, [] => .ok []
  | i, clip :: rest =>
    match sanitizeTitle clip.title with
    | .error e => .error e
    | .ok safeTitle =>
      match extract_clip videoExists (outcomes i)
          (clipOutputPath video_path output_dir i safeTitle) with
      | .ok p => (extractClipsBatchGo videoExists outcomes video_path output_dir (i + 1) rest).map (p :: ·)
      | .error .clipExtractionError =>
        extractClipsBatchGo videoExists outcomes video_path output_dir (i + 1) rest
      | .error e => .error e

/-- clip_extractor.extract_clips (batch form). -/
def extract_clips_batch (videoExists : Bool) (outcomes : Nat → CutOutcome)
    (video_path : String) (clips : List Clip) (output_dir : String) :
    Except MediaErr (List String) :=
  extractClipsBatchGo videoExists outcomes video_path output_dir 0 clips

/-- Specification-side description of the batch result: the output paths of
exactly those clips whose ffmpeg invocation succeeds, in order. -/
def successfulCutPaths (outcomes : Nat → CutOutcome) (video_path output_dir : String) :
    Nat → List Clip → List String
  | _, [] => []
  | i, c :: rest =>
    let tail := successfulCutPaths outcomes video_path output_dir (i + 1) rest
    match outcomes i, c.title with
    | .ok, .str s => clipOutputPath video_path output_dir i (sanitizeTitleStr s) :: tail
    | _, _ => tail

/- ---------------------------------------------------------------------------
src/video_summarizer/api/main.py: the JobStatus constants, the update_job
closure of process_transcription, and the transcription pipeline itself as a
state machine over an oracle of per-stage outcomes.
--------------------------------------------------------------------------- -/

/-- The JobStatus constants of api/main.py. -/
inductive JobStatus where
  | pending : JobStatus
  | processing : JobStatus
  | completed : JobStatus
  | failed : JobStatus
  deriving DecidableEq

/-- The mutable Job row fields touched by process_transcription. -/
structure Job where
  status : JobStatus
  result : Option (List (String × PyVal))
  error : Option String
  updated_at : Nat

/-- The update_job helper of process_transcription: always sets status and
updated_at; merges a truthy result dict into the existing result (None and
the empty dict are falsy and skipped); records a truthy error string (the
empty string is falsy and skipped). -/
def update_job (job : Job) (status : JobStatus)
    (result : Option (List (String × PyVal))) (error : Option String) (now : Nat) : Job :=
  let job := { job with status := status, updated_at := now }
  let job :=
    match result with
    | some r =>
      if r.isEmpty then job
      else { job with result := some (dictUpdate (job.result.getD []) r) }
    | Option.none => job
  match error with
  | some e => if e ≠ "" then { job with error := some e } else job
  | Option.none => job

/-- The stages of process_transcription that can raise, in program order. -/
inductive PTStep where
  | download : PTStep
  | dbAddVideo : PTStep
  | extractAudio : PTStep
  | transcribe : PTStep
  | saveSrt : PTStep
  | writeText : PTStep
  | dbCommitVideo : PTStep
  deriving DecidableEq

/-- Paths of the files the pipeline touches (one fixed job directory). -/
def videoPath : String := "output/job/video.mp4"

/-- The temporary audio file produced by extract_audio. -/
def audioPath : String := "output/job/video_audio.wav"

/-- The subtitle transcript artifact. -/
def srtPath : String := "output/job/transcript.srt"

/-- The plain-text transcript artifact. -/
def txtPath : String := "output/job/transcript.txt"

/-- `str(e)` for the exception a failing stage raises (always non-empty for
these library errors). -/
def stepFailMsg : PTStep → String
  | .download => "Download failed"
  | .dbAddVideo => "Database error"
  | .extractAudio => "Audio extraction failed"
  | .transcribe => "Transcription failed"
  | .saveSrt => "Could not write SRT file"
  | .writeText => "Could not write text file"
  | .dbCommitVideo => "Database commit failed"

/-- State visible after process_transcription returns: the files that exist
in the job directory and the final Job row. -/
structure PTState where
  files : List String
  job : Job

/-- The `except Exception` handler: `update_job(JobStatus.FAILED, error=str(e))`.
No file is deleted on this path. -/
def ptFail (files : List String) (job : Job) (step : PTStep) (now : Nat) : PTState :=
  ⟨files, update_job job .failed Option.none (some (stepFailMsg step)) now⟩

/-- process_transcription after language validation, driven by an oracle
saying which stage raises: source handling, audio extraction, transcription,
artifact writes, then `if os.path.exists(audio_path): os.unlink(audio_path)`
only on the success path, and the final status update. -/
def process_transcription (isUrl : Bool) (fails : PTStep → Bool) (job0 : Job)
    (now : Nat) : PTState :=
  let job := update_job job0 .processing
    (some [("step", .str "Starting transcription pipeline...")]) Option.none now
  let job := if isUrl then
      update_job job .processing (some [("step", .str "Downloading video...")]) Option.none now
    else job
  if isUrl ∧ fails .download then ptFail [] job .download now else
  let files : List String := if isUrl then [videoPath] else []
  if fails .dbAddVideo then ptFail files job .dbAddVideo now else
  let job := update_job job .processing
    (some [("step", .str "Extracting audio...")]) Option.none now
  if fails .extractAudio then ptFail files job .extractAudio now else
  let files := files ++ [audioPath]
  let job := update_job job .processing
    (some [("step", .str "Transcribing audio...")]) Option.none now
  if fails .transcribe then ptFail files job .transcribe now else
  if fails .saveSrt then ptFail files job .saveSrt now else
  let files := files ++ [srtPath]
  if fails .writeText then ptFail files job .writeText now else
  let files := files ++ [txtPath]
  if fails .dbCommitVideo then ptFail files job .dbCommitVideo now else
  let files := files.erase audioPath
  let job := update_job job .completed
    (some [("message", .str "Transcription successful"), ("step", .str "Completed"),
           ("transcript_path", .str srtPath)]) Option.none now
  ⟨files, job⟩

/- ---------------------------------------------------------------------------
Theorems
--------------------------------------------------------------------------- -/

/-- Claim C1, counterexample: Clip.from_dict applies int() to the importance
field without any clamping, so a candidate carrying importance 99 constructs
a Clip whose importance is 99, outside [1,10]. -/
theorem c1_counterexample :
    Clip.from_dict [("start", .int 0), ("end", .int 5), ("title", .str ("A")),
        ("importance", .int 99)] =
      .ok { start := 0, «end» := 5, title := .str ("A"), description := .str (""),
            importance := 99 } ∧
    ¬ ((99 : Int) ≤ 10) :=
  ⟨rfl, by decide⟩

/-- Claim C1, amended: Clip.from_dict does not clamp importance; it stores
exactly the int()-coerced input value, whatever integer the mapping carries,
and defaults to 5 when the key is absent. -/
theorem c1_importance_not_clamped (s e : Rat) (t d : String) (n : Int) :
    Clip.from_dict [("start", .float s), ("end", .float e), ("title", .str t),
        ("description", .str d), ("importance", .int n)] =
      .ok { start := s, «end» := e, title := .str t, description := .str d,
            importance := n } ∧
    Clip.from_dict [("start", .float s), ("end", .float e), ("title", .str t),
        ("description", .str d)] =
      .ok { start := s, «end» := e, title := .str t, description := .str d,
            importance := 5 } :=
  ⟨rfl, rfl⟩

/-- Claim C3: on the truncated response cut off inside a string value, the
extractor succeeds and returns a mapping whose clips array holds exactly the
one complete clip titled A; the incomplete trailing element is discarded. -/
theorem c3_truncation_repair :
    parseJsonResponse
        ("\x7b\"clips\": [\x7b\"start\":0,\"end\":5,\"title\":\"A\",\"importance\":5\x7d,\x7b\"start\":10,\"end\":\"") =
      .ok (.dict [("clips", .list [.dict [("start", .int 0), ("end", .int 5),
        ("title", .str ("A")), ("importance", .int 5)]])]) :=
  rfl

/-- Claim C5: for a sane configuration (min_duration ≤ max_duration) the
duration clamp of extract_clips never drops a constructed candidate: clips
within bounds pass unchanged, short clips get end = start + min_duration,
long clips get end = start + max_duration, and the result is always some. -/
theorem c5_duration_clamp (min_duration max_duration : Rat) (c : Clip)
    (hmm : min_duration ≤ max_duration) :
    (min_duration ≤ c.duration ∧ c.duration ≤ max_duration →
      clampClip min_duration max_duration c = some c) ∧
    (c.duration < min_duration →
      clampClip min_duration max_duration c =
        some { c with «end» := c.start + min_duration }) ∧
    (max_duration < c.duration →
      clampClip min_duration max_duration c =
        some { c with «end» := c.start + max_duration }) ∧
    (clampClip min_duration max_duration c).isSome = true := by
  unfold clampClip
  refine ⟨fun h => ?_, fun h => ?_, fun h => ?_, ?_⟩
  · rw [if_pos h]
  · rw [if_neg (fun hc => absurd h (not_lt.mpr hc.1)), if_pos h]
  · have h1 : ¬ (min_duration ≤ c.duration ∧ c.duration ≤ max_duration) :=
      fun hc => absurd h (not_lt.mpr hc.2)
    have h2 : ¬ (c.duration < min_duration) :=
      not_lt.mpr (le_trans hmm h.le)
    rw [if_neg h1, if_neg h2, if_pos h]
  · by_cases h1 : min_duration ≤ c.duration ∧ c.duration ≤ max_duration
    · rw [if_pos h1]; rfl
    · by_cases h2 : c.duration < min_duration
      · rw [if_neg h1, if_pos h2]; rfl
      · have h3 : max_duration < c.duration := by
          rcases not_and_or.mp h1 with h | h
          · exact absurd (not_le.mp h) h2
          · exact not_le.mp h
        rw [if_neg h1, if_neg h2, if_pos h3]; rfl

/-- Claim C5, witness: the spec's own example, a 2-second candidate with
min_duration 10 is extended to end = 20 rather than dropped. -/
theorem c5_duration_clamp_witness :
    clampClip 10 120
      { start := 10, «end» := 12, title := .str ("t"),
        description := .str (""), importance := 5 } =
      some
        { start := 10, «end» := 20, title := .str ("t"),
          description := .str (""), importance := 5 } := by
  rw [(c5_duration_clamp 10 120
    { start := 10, «end» := 12, title := .str ("t"), description := .str (""),
      importance := 5 } (by norm_num)).2.1 (by norm_num [Clip.duration])]
  norm_num

/-- Claim C8, counterexample: failing a Job with an empty error message does
not record the error at all (`if error:` is false for the empty string), so
"records the error message" fails as stated. -/
theorem c8_counterexample :
    (update_job
      { status := .processing,
        result := some [("step", .str ("Transcribing audio..."))],
        error := Option.none, updated_at := 5 }
      .failed Option.none (some ("")) 6).error = Option.none :=
  rfl

/-- Claim C8, amended: failing a Job touches only status, error and
updated_at; the partial result is preserved unchanged; the error message is
recorded when non-empty, while an empty message leaves the error field as it
was. -/
theorem c8_fail_frame (job : Job) (err : String) (now : Nat) :
    (update_job job .failed Option.none (some err) now).status = .failed ∧
    (update_job job .failed Option.none (some err) now).updated_at = now ∧
    (update_job job .failed Option.none (some err) now).result = job.result ∧
    (err ≠ "" → (update_job job .failed Option.none (some err) now).error = some err) ∧
    (err = "" → (update_job job .failed Option.none (some err) now).error = job.error) := by
  unfold update_job
  by_cases h : err = "" <;> simp [h]

/-- Claim C8, witness: a concrete failing update preserving the recorded
partial result while recording a non-empty error. -/
theorem c8_fail_frame_witness :
    (update_job
      { status := .processing, result := some [("step", .str ("x"))],
        error := Option.none, updated_at := 5 }
      .failed Option.none (some ("boom")) 6).result = some [("step", .str ("x"))] ∧
    (update_job
      { status := .processing, result := some [("step", .str ("x"))],
        error := Option.none, updated_at := 5 }
      .failed Option.none (some ("boom")) 6).error = some ("boom") :=
  ⟨(c8_fail_frame
      { status := .processing, result := some [("step", .str ("x"))],
        error := Option.none, updated_at := 5 } "boom" 6).2.2.1,
   (c8_fail_frame
      { status := .processing, result := some [("step", .str ("x"))],
        error := Option.none, updated_at := 5 } "boom" 6).2.2.2.1 (by decide)⟩

/-- Claim C9: when the stripped response is strictly valid JSON, the direct
parse short-circuits and the extractor returns exactly that parse; the later
fenced-block, brace-scan and repair strategies never run. -/
theorem c9_direct_parse_short_circuits (s : String) (v : PyVal)
    (h : jsonLoadsL (pyStripL s.data) = some v) :
    parseJsonResponse s = .ok v := by
  simp only [parseJsonResponse, h]

/-- Claim C9, witness: a concrete strictly valid (after stripping) response. -/
theorem c9_direct_parse_short_circuits_witness :
    parseJsonResponse (" \x7b\"a\": 1\x7d ") = .ok (.dict [("a", .int 1)]) :=
  c9_direct_parse_short_circuits (" \x7b\"a\": 1\x7d ") (.dict [("a", .int 1)]) rfl

/-- Claim C10: Clip serialization round-trips: from_dict(to_dict(c)) = c for
every Clip; the derived duration key emitted by to_dict is ignored by
from_dict and does not disturb the round trip. -/
theorem c10_clip_roundtrip (c : Clip) : Clip.from_dict c.to_dict = .ok c := rfl

/-- Inserting into the sorted accumulator is a permutation of consing. -/
theorem insertClipDesc_perm (a : Clip) (l : List Clip) :
    (insertClipDesc a l).Perm (a :: l) := by
  induction l with
  | nil => exact List.Perm.refl _
  | cons b bs ih =>
    unfold insertClipDesc
    by_cases h : b.importance ≤ a.importance
    · rw [if_pos h]
    · rw [if_neg h]
      exact (List.Perm.cons b ih).trans (List.Perm.swap a b bs)

/-- The stable sort is a permutation of its input. -/
theorem sortClipsDesc_perm (l : List Clip) : (sortClipsDesc l).Perm l := by
  induction l with
  | nil => exact List.Perm.refl _
  | cons c cs ih =>
    exact (insertClipDesc_perm c (sortClipsDesc cs)).trans (List.Perm.cons c ih)

/-- Membership through insertClipDesc. -/
theorem mem_insertClipDesc {x a : Clip} {l : List Clip} :
    x ∈ insertClipDesc a l ↔ x = a ∨ x ∈ l := by
  constructor
  · intro hx
    have := (insertClipDesc_perm a l).mem_iff.mp hx
    simpa using this
  · intro hx
    apply (insertClipDesc_perm a l).mem_iff.mpr
    simpa using hx

/-- insertClipDesc preserves descending order on importance. -/
theorem insertClipDesc_pairwise (a : Clip) (l : List Clip)
    (h : l.Pairwise (fun x y => y.importance ≤ x.importance)) :
    (insertClipDesc a l).Pairwise (fun x y => y.importance ≤ x.importance) := by
  induction l with
  | nil => simp [insertClipDesc]
  | cons b bs ih =>
    rcases List.pairwise_cons.mp h with ⟨h1, h2⟩
    unfold insertClipDesc
    by_cases hba : b.importance ≤ a.importance
    · rw [if_pos hba]
      refine List.pairwise_cons.mpr ⟨?_, h⟩
      intro x hx
      rcases List.mem_cons.mp hx with rfl | hx
      · exact hba
      · exact le_trans (h1 x hx) hba
    · rw [if_neg hba]
      refine List.pairwise_cons.mpr ⟨?_, ih h2⟩
      intro x hx
      rcases mem_insertClipDesc.mp hx with rfl | hx
      · exact le_of_not_le hba
      · exact h1 x hx

/-- The stable sort is descending on importance. -/
theorem sortClipsDesc_sorted (l : List Clip) :
    (sortClipsDesc l).Pairwise (fun x y => y.importance ≤ x.importance) := by
  induction l with
  | nil => simp [sortClipsDesc]
  | cons c cs ih => exact insertClipDesc_pairwise c (sortClipsDesc cs) ih

/-- Filtering one importance class through insertClipDesc: the new element
goes in front exactly when it belongs to the class, every skipped element
being strictly more important. -/
theorem filter_insertClipDesc (a : Clip) (l : List Clip) (k : Int) :
    (insertClipDesc a l).filter (fun c => c.importance == k) =
      if a.importance == k then a :: l.filter (fun c => c.importance == k)
      else l.filter (fun c => c.importance == k) := by
  induction l with
  | nil =>
    by_cases hak : (a.importance == k) = true <;>
      simp [insertClipDesc, List.filter, hak]
  | cons b bs ih =>
    unfold insertClipDesc
    by_cases hba : b.importance ≤ a.importance
    · rw [if_pos hba]
      by_cases hak : (a.importance == k) = true <;>
        simp [List.filter_cons, hak]
    · rw [if_neg hba]
      by_cases hak : (a.importance == k) = true
      · have hbk : (b.importance == k) = false := by
          apply beq_eq_false_iff_ne.mpr
          intro hbk
          exact hba (le_of_eq (hbk.trans (beq_iff_eq.mp hak).symm))
        simp [List.filter_cons, hbk, ih, hak]
      · simp only [List.filter_cons, ih, if_neg hak]

/-- Ties keep their original extraction order: filtering any single
importance value out of the sorted list gives the same subsequence as
filtering the input. -/
theorem filter_sortClipsDesc (l : List Clip) (k : Int) :
    (sortClipsDesc l).filter (fun c => c.importance == k) =
      l.filter (fun c => c.importance == k) := by
  induction l with
  | nil => rfl
  | cons c cs ih =>
    show (insertClipDesc c (sortClipsDesc cs)).filter _ = _
    rw [filter_insertClipDesc]
    by_cases hck : (c.importance == k) = true
    · rw [if_pos hck, ih, List.filter_cons, if_pos hck]
    · rw [if_neg hck, ih, List.filter_cons, if_neg hck]

/-- Claim C6: extract_clips ranks the surviving candidates by importance
descending, stable for ties (the sorted list is a permutation of the input
whose restriction to every importance class equals the input's), returns the
first num_clips of the ranking, returns everything (a permutation, nothing
padded) when fewer candidates survive than requested, and on importances
[3, 9, 9, 1] with num_clips = 2 yields the two importance-9 candidates in
their original relative order. -/
theorem c6_ranking_selection (clips : List Clip) (num_clips : Nat) :
    (rankSelect clips num_clips).Pairwise (fun x y => y.importance ≤ x.importance) ∧
    (sortClipsDesc clips).Perm clips ∧
    (∀ k : Int, (sortClipsDesc clips).filter (fun c => c.importance == k) =
      clips.filter (fun c => c.importance == k)) ∧
    rankSelect clips num_clips = (sortClipsDesc clips).take num_clips ∧
    (rankSelect clips num_clips).length = min num_clips clips.length ∧
    (clips.length ≤ num_clips → (rankSelect clips num_clips).Perm clips) ∧
    rankSelect
      [{ start := 0, «end» := 20, title := .str ("a"), description := .str (""), importance := 3 },
       { start := 0, «end» := 20, title := .str ("b"), description := .str (""), importance := 9 },
       { start := 0, «end» := 20, title := .str ("c"), description := .str (""), importance := 9 },
       { start := 0, «end» := 20, title := .str ("d"), description := .str (""), importance := 1 }] 2 =
      [{ start := 0, «end» := 20, title := .str ("b"), description := .str (""), importance := 9 },
       { start := 0, «end» := 20, title := .str ("c"), description := .str (""), importance := 9 }] := by
  refine ⟨?_, sortClipsDesc_perm clips, filter_sortClipsDesc clips, rfl, ?_, ?_, rfl⟩
  · exact List.Pairwise.sublist (List.take_sublist num_clips (sortClipsDesc clips))
      (sortClipsDesc_sorted clips)
  · show ((sortClipsDesc clips).take num_clips).length = _
    rw [List.length_take, (sortClipsDesc_perm clips).length_eq]
  · intro h
    show ((sortClipsDesc clips).take num_clips).Perm clips
    rw [List.take_of_length_le (le_trans (le_of_eq (sortClipsDesc_perm clips).length_eq) h)]
    exact sortClipsDesc_perm clips

/-- Claim C6, witness: fewer candidates than requested are all returned. -/
theorem c6_ranking_selection_witness :
    (rankSelect
      [{ start := 0, «end» := 20, title := .str ("a"), description := .str (""), importance := 3 }]
      5).Perm
      [{ start := 0, «end» := 20, title := .str ("a"), description := .str (""), importance := 3 }] :=
  (c6_ranking_selection
    [{ start := 0, «end» := 20, title := .str ("a"), description := .str (""), importance := 3 }]
    5).2.2.2.2.2.1 (by decide)

/-- Worker form of claim C7, generalizing over the starting index. -/
theorem c7_batch_go (outcomes : Nat → CutOutcome) (video_path output_dir : String)
    (clips : List Clip) :
    ∀ i, clips.all isStrTitle = true →
      extractClipsBatchGo true outcomes video_path output_dir i clips =
        .ok (successfulCutPaths outcomes video_path output_dir i clips) := by
  induction clips with
  | nil => intro i _; rfl
  | cons c rest ih =>
    intro i hall
    rcases List.all_eq_true.mp hall c (List.mem_cons_self c rest) with ht
    have hrest : rest.all isStrTitle = true :=
      List.all_eq_true.mpr (fun x hx =>
        List.all_eq_true.mp hall x (List.mem_cons_of_mem c hx))
    match hc : c.title with
    | .str s =>
      unfold extractClipsBatchGo successfulCutPaths
      rw [hc]
      show (match extract_clip true (outcomes i) _ with
        | .ok p => (extractClipsBatchGo true outcomes video_path output_dir (i + 1) rest).map (p :: ·)
        | .error .clipExtractionError =>
          extractClipsBatchGo true outcomes video_path output_dir (i + 1) rest
        | .error e => .error e) = _
      cases ho : outcomes i with
      | ok =>
        rw [ih (i + 1) hrest]
        rfl
      | ffmpegFail =>
        rw [ih (i + 1) hrest]
        rfl
    | .int n => rw [isStrTitle, hc] at ht; exact absurd ht (by simp)
    | .float r => rw [isStrTitle, hc] at ht; exact absurd ht (by simp)
    | .bool b => rw [isStrTitle, hc] at ht; exact absurd ht (by simp)
    | .pynone => rw [isStrTitle, hc] at ht; exact absurd ht (by simp)
    | .list xs => rw [isStrTitle, hc] at ht; exact absurd ht (by simp)
    | .dict d => rw [isStrTitle, hc] at ht; exact absurd ht (by simp)

/-- Claim C7: with the source video present, a ClipExtractionError on any
individual clip neither aborts the batch nor reaches the caller: the loop
continues and the result is ok with exactly the successfully cut clips'
output paths. -/
theorem c7_batch_isolation (outcomes : Nat → CutOutcome) (video_path output_dir : String)
    (clips : List Clip) (h : clips.all isStrTitle = true) :
    extract_clips_batch true outcomes video_path clips output_dir =
      .ok (successfulCutPaths outcomes video_path output_dir 0 clips) :=
  c7_batch_go outcomes video_path output_dir clips 0 h

/-- Claim C7, witness: five clips with the second cut failing yield an ok
result holding the other four paths (the spec's stage-isolation example). -/
theorem c7_batch_isolation_witness :
    extract_clips_batch true (fun i => if i = 1 then .ffmpegFail else .ok) ("v.mp4")
      (List.replicate 5
        { start := 0, «end» := 20, title := .str ("t"), description := .str (""),
          importance := 5 })
      ("out") =
      .ok [("out/clip_01_t.mp4"), ("out/clip_03_t.mp4"), ("out/clip_04_t.mp4"),
           ("out/clip_05_t.mp4")] := by
  rw [c7_batch_isolation (fun i => if i = 1 then .ffmpegFail else .ok) ("v.mp4") ("out")
    (List.replicate 5
      { start := 0, «end» := 20, title := .str ("t"), description := .str (""),
        importance := 5 }) (by decide)]
  rfl

/-- Claim C2, counterexample: when the transcription stage raises, the
except-handler fails the Job but never deletes the extracted audio file, so
the temporary audio file is still present when the function returns. -/
theorem c2_counterexample :
    audioPath ∈ (process_transcription false (fun s => s == PTStep.transcribe)
      { status := .pending, result := Option.none, error := Option.none, updated_at := 0 }
      1).files := by
  decide

/-- Claim C2, amended: the temporary audio file is deleted only on the fully
successful path; once extract_audio has run, the file is left behind exactly
when transcription or any later step raises (the cleanup sits inside the try
block, not in a finally). -/
theorem c2_audio_cleanup (isUrl : Bool) (fails : PTStep → Bool) (job0 : Job) (now : Nat)
    (hd : fails .download = false) (hdb : fails .dbAddVideo = false)
    (ha : fails .extractAudio = false) :
    audioPath ∈ (process_transcription isUrl fails job0 now).files ↔
      (fails .transcribe || fails .saveSrt || fails .writeText ||
        fails .dbCommitVideo) = true := by
  cases isUrl <;>
    cases h1 : fails .transcribe <;>
      cases h2 : fails .saveSrt <;>
        cases h3 : fails .writeText <;>
          cases h4 : fails .dbCommitVideo <;>
            simp [process_transcription, ptFail, hd, hdb, ha, h1, h2, h3, h4] <;>
              decide

/-- Claim C2, witness: a run whose transcription stage raises leaves the
audio file behind. -/
theorem c2_audio_cleanup_witness :
    audioPath ∈ (process_transcription false (fun s => s == PTStep.transcribe)
      { status := .pending, result := Option.none, error := Option.none, updated_at := 0 }
      1).files :=
  (c2_audio_cleanup false (fun s => s == PTStep.transcribe)
    { status := .pending, result := Option.none, error := Option.none, updated_at := 0 }
    1 (by decide) (by decide) (by decide)).mpr (by decide)

/-- digitVal inverts digitChar below ten. -/
theorem digitVal_digitChar (d : Nat) (h : d < 10) : digitVal (digitChar d) = some d := by
  interval_cases d <;> rfl

/-- Digit characters are not whitespace. -/
theorem pyWs_digitChar (d : Nat) : pyWs (digitChar d) = false := by
  rcases d with _ | _ | _ | _ | _ | _ | _ | _ | _ | d <;> rfl

/-- Digit characters are not newlines. -/
theorem digitChar_ne_nl (d : Nat) : digitChar d ≠ '\n' := by
  intro h
  have hw := pyWs_digitChar d
  rw [h] at hw
  exact absurd hw (by decide)

/-- Every character of natReprAux is a digit character. -/
theorem natReprAux_mem : ∀ fuel n c, c ∈ natReprAux fuel n → ∃ d, c = digitChar d := by
  intro fuel
  induction fuel with
  | zero => intro n c hc; simp [natReprAux] at hc
  | succ f ih =>
    intro n c hc
    rw [natReprAux] at hc
    by_cases h : n < 10
    · rw [if_pos h] at hc
      exact ⟨n, (List.mem_singleton.mp hc)⟩
    · rw [if_neg h] at hc
      rcases List.mem_append.mp hc with hc | hc
      · exact ih (n / 10) c hc
      · exact ⟨n % 10, List.mem_singleton.mp hc⟩

/-- Characters of the decimal representation are digits. -/
theorem natReprL_mem (n : Nat) (c : Char) (hc : c ∈ natReprL n) : ∃ d, c = digitChar d :=
  natReprAux_mem (n + 1) n c hc

/-- The decimal representation is never empty. -/
theorem natReprL_ne_nil (n : Nat) : natReprL n ≠ [] := by
  rw [natReprL, natReprAux]
  by_cases h : n < 10
  · rw [if_pos h]; simp
  · rw [if_neg h]; simp

/-- Single-digit decimal representation. -/
theorem natReprL_lt10 {n : Nat} (h : n < 10) : natReprL n = [digitChar n] := by
  rw [natReprL, natReprAux, if_pos h]

/-- Two-digit decimal representation. -/
theorem natReprL_two {n : Nat} (h10 : ¬ n < 10) (h : n < 100) :
    natReprL n = [digitChar (n / 10), digitChar (n % 10)] := by
  obtain ⟨m, rfl⟩ : ∃ m, n = m + 1 := ⟨n - 1, by omega⟩
  rw [natReprL, natReprAux, if_neg h10, natReprAux, if_pos (by omega : (m + 1) / 10 < 10)]
  rfl

/-- Three-digit decimal representation. -/
theorem natReprL_three {n : Nat} (h100 : ¬ n < 100) (h : n < 1000) :
    natReprL n = [digitChar (n / 100), digitChar (n / 10 % 10), digitChar (n % 10)] := by
  obtain ⟨m, rfl⟩ : ∃ m, n = m + 2 := ⟨n - 2, by omega⟩
  rw [natReprL, natReprAux, if_neg (by omega : ¬ m + 2 < 10),
    natReprAux, if_neg (by omega : ¬ (m + 2) / 10 < 10),
    natReprAux, if_pos (by omega : (m + 2) / 10 / 10 < 10)]
  have : (m + 2) / 10 / 10 = (m + 2) / 100 := by omega
  rw [this]
  rfl

/-- parse2 inverts pad2 below 100. -/
theorem parse2_pad2 {n : Nat} (h : n < 100) (rest : List Char) :
    parse2 (pad2 n ++ rest) = some (n, rest) := by
  rw [pad2]
  by_cases h10 : n < 10
  · rw [if_pos h10, natReprL_lt10 h10]
    show parse2 ('0' :: digitChar n :: rest) = some (n, rest)
    rw [parse2, digitVal_digitChar n h10]
    show some (10 * 0 + n, rest) = some (n, rest)
    simp
  · rw [if_neg h10, natReprL_two h10 h]
    show parse2 (digitChar (n / 10) :: digitChar (n % 10) :: rest) = some (n, rest)
    rw [parse2, digitVal_digitChar (n / 10) (by omega), digitVal_digitChar (n % 10) (by omega)]
    show some (10 * (n / 10) + n % 10, rest) = some (n, rest)
    congr 1
    rw [Prod.mk.injEq]
    exact ⟨by omega, rfl⟩

/-- parse3 inverts pad3 below 1000. -/
theorem parse3_pad3 {n : Nat} (h : n < 1000) (rest : List Char) :
    parse3 (pad3 n ++ rest) = some (n, rest) := by
  rw [pad3]
  by_cases h10 : n < 10
  · rw [if_pos h10, natReprL_lt10 h10]
    show parse3 ('0' :: '0' :: digitChar n :: rest) = some (n, rest)
    rw [parse3, digitVal_digitChar n h10]
    show some (100 * 0 + 10 * 0 + n, rest) = some (n, rest)
    simp
  · rw [if_neg h10]
    by_cases h100 : n < 100
    · rw [if_pos h100, natReprL_two h10 h100]
      show parse3 ('0' :: digitChar (n / 10) :: digitChar (n % 10) :: rest) = some (n, rest)
      rw [parse3, digitVal_digitChar (n / 10) (by omega), digitVal_digitChar (n % 10) (by omega)]
      show some (100 * 0 + 10 * (n / 10) + n % 10, rest) = some (n, rest)
      congr 1
      rw [Prod.mk.injEq]
      exact ⟨by omega, rfl⟩
    · rw [if_neg h100, natReprL_three h100 h]
      show parse3 (digitChar (n / 100) :: digitChar (n / 10 % 10) :: digitChar (n % 10) :: rest)
        = some (n, rest)
      rw [parse3, digitVal_digitChar (n / 100) (by omega),
        digitVal_digitChar (n / 10 % 10) (by omega), digitVal_digitChar (n % 10) (by omega)]
      show some (100 * (n / 100) + 10 * (n / 10 % 10) + n % 10, rest) = some (n, rest)
      congr 1
      rw [Prod.mk.injEq]
      exact ⟨by omega, rfl⟩

/-- Python float modulo is non-negative for a positive modulus. -/
theorem pymod_nonneg (a b : Rat) (hb : 0 < b) : 0 ≤ pymod a b := by
  rw [pymod, sub_nonneg]
  calc b * (⌊a / b⌋ : ℚ) ≤ b * (a / b) :=
        mul_le_mul_of_nonneg_left (Int.floor_le _) hb.le
    _ = a := by field_simp

/-- Python float modulo is below a positive modulus. -/
theorem pymod_lt (a b : Rat) (hb : 0 < b) : pymod a b < b := by
  rw [pymod, sub_lt_iff_lt_add]
  calc a = b * (a / b) := by field_simp
    _ < b * ((⌊a / b⌋ : ℚ) + 1) :=
        mul_lt_mul_of_pos_left (Int.lt_floor_add_one _) hb
    _ = b + b * (⌊a / b⌋ : ℚ) := by ring

/-- The minutes field of format_timestamp as a plain floor expression. -/
theorem floor_pymod_minutes (t : Rat) :
    ⌊pymod t 3600 / 60⌋ = ⌊t / 60⌋ - 60 * ⌊t / 3600⌋ := by
  have h : pymod t 3600 / 60 = t / 60 - ((60 * ⌊t / 3600⌋ : ℤ) : ℚ) := by
    rw [pymod]; push_cast; ring
  rw [h, Int.floor_sub_int]

/-- The seconds field of format_timestamp as a plain floor expression. -/
theorem floor_pymod_secs (t : Rat) :
    ⌊pymod t 60⌋ = ⌊t⌋ - 60 * ⌊t / 60⌋ := by
  have h : pymod t 60 = t - ((60 * ⌊t / 60⌋ : ℤ) : ℚ) := by
    rw [pymod]; push_cast; ring
  rw [h, Int.floor_sub_int]

/-- The fractional part used for the milliseconds field. -/
theorem pymod_one (t : Rat) : pymod t 1 = t - ⌊t⌋ := by
  rw [pymod, div_one, one_mul]

/-- The reconstructed timestamp value sits within a millisecond below the
original time. -/
theorem tsToSeconds_format (t : Rat) (h0 : 0 ≤ t) :
    0 ≤ t - tsToSeconds ((⌊t / 3600⌋).toNat, (⌊pymod t 3600 / 60⌋).toNat,
        (⌊pymod t 60⌋).toNat, (⌊pymod t 1 * 1000⌋).toNat) ∧
      t - tsToSeconds ((⌊t / 3600⌋).toNat, (⌊pymod t 3600 / 60⌋).toNat,
        (⌊pymod t 60⌋).toNat, (⌊pymod t 1 * 1000⌋).toNat) < 1 / 1000 := by
  have hH0 : (0 : ℤ) ≤ ⌊t / 3600⌋ := Int.floor_nonneg.mpr (by positivity)
  have hM0 : (0 : ℤ) ≤ ⌊pymod t 3600 / 60⌋ :=
    Int.floor_nonneg.mpr (div_nonneg (pymod_nonneg t 3600 (by norm_num)) (by norm_num))
  have hS0 : (0 : ℤ) ≤ ⌊pymod t 60⌋ :=
    Int.floor_nonneg.mpr (pymod_nonneg t 60 (by norm_num))
  have hK0 : (0 : ℤ) ≤ ⌊pymod t 1 * 1000⌋ :=
    Int.floor_nonneg.mpr (mul_nonneg (pymod_nonneg t 1 (by norm_num)) (by norm_num))
  have k1 : ((⌊(t - (⌊t⌋ : ℚ)) * 1000⌋ : ℤ) : ℚ) ≤ (t - (⌊t⌋ : ℚ)) * 1000 := Int.floor_le _
  have k2 : (t - (⌊t⌋ : ℚ)) * 1000 < ((⌊(t - (⌊t⌋ : ℚ)) * 1000⌋ : ℤ) : ℚ) + 1 :=
    Int.lt_floor_add_one _
  rw [tsToSeconds]
  simp only [Int.toNat_of_nonneg, hH0, hM0, hS0, hK0, Int.cast_natCast]
  rw [show ((((⌊t / 3600⌋).toNat : ℕ) : ℚ)) = ((⌊t / 3600⌋ : ℤ) : ℚ) by
      exact_mod_cast congrArg Int.cast (Int.toNat_of_nonneg hH0),
    show ((((⌊pymod t 3600 / 60⌋).toNat : ℕ) : ℚ)) = ((⌊pymod t 3600 / 60⌋ : ℤ) : ℚ) by
      exact_mod_cast congrArg Int.cast (Int.toNat_of_nonneg hM0),
    show ((((⌊pymod t 60⌋).toNat : ℕ) : ℚ)) = ((⌊pymod t 60⌋ : ℤ) : ℚ) by
      exact_mod_cast congrArg Int.cast (Int.toNat_of_nonneg hS0),
    show ((((⌊pymod t 1 * 1000⌋).toNat : ℕ) : ℚ)) = ((⌊pymod t 1 * 1000⌋ : ℤ) : ℚ) by
      exact_mod_cast congrArg Int.cast (Int.toNat_of_nonneg hK0)]
  rw [floor_pymod_minutes, floor_pymod_secs, pymod_one]
  push_cast
  constructor <;> linarith

/-- format_timestamp unfolded for a non-negative time. -/
theorem format_timestamp_eq (t : Rat) (h0 : 0 ≤ t) :
    format_timestamp t =
      pad2 (⌊t / 3600⌋).toNat ++ ':' :: pad2 (⌊pymod t 3600 / 60⌋).toNat ++
        ':' :: pad2 (⌊pymod t 60⌋).toNat ++ ',' :: pad3 (⌊pymod t 1 * 1000⌋).toNat := by
  simp only [format_timestamp, if_neg (not_lt.mpr h0)]

/-- Field bounds of format_timestamp for a time below 100 hours. -/
theorem format_fields_lt (t : Rat) (h0 : 0 ≤ t) (hlt : t < 360000) :
    (⌊t / 3600⌋).toNat < 100 ∧ (⌊pymod t 3600 / 60⌋).toNat < 100 ∧
      (⌊pymod t 60⌋).toNat < 100 ∧ (⌊pymod t 1 * 1000⌋).toNat < 1000 := by
  have h1 : ⌊t / 3600⌋ < 100 := Int.floor_lt.mpr (by
    rw [div_lt_iff (by norm_num : (0:ℚ) < 3600)]
    push_cast
    linarith)
  have h2 : ⌊pymod t 3600 / 60⌋ < 60 := Int.floor_lt.mpr (by
    rw [div_lt_iff (by norm_num : (0:ℚ) < 60)]
    have := pymod_lt t 3600 (by norm_num)
    push_cast
    linarith)
  have h3 : ⌊pymod t 60⌋ < 60 := Int.floor_lt.mpr (by
    have := pymod_lt t 60 (by norm_num)
    push_cast
    linarith)
  have h4 : ⌊pymod t 1 * 1000⌋ < 1000 := Int.floor_lt.mpr (by
    have := pymod_lt t 1 (by norm_num)
    push_cast
    linarith)
  refine ⟨by omega, by omega, by omega, by omega⟩

/-- pad2 starts with a digit character (for widths that occur). -/
theorem pad2_head (n : Nat) (h : n < 100) : ∃ d r, pad2 n = digitChar d :: r := by
  rw [pad2]
  by_cases h10 : n < 10
  · rw [if_pos h10, natReprL_lt10 h10]
    exact ⟨0, [digitChar n], rfl⟩
  · rw [if_neg h10, natReprL_two h10 h]
    exact ⟨n / 10, [digitChar (n % 10)], rfl⟩

/-- Every character of pad2 is a digit character. -/
theorem pad2_mem {n : Nat} {c : Char} (hc : c ∈ pad2 n) : ∃ d, c = digitChar d := by
  rw [pad2] at hc
  by_cases h10 : n < 10
  · rw [if_pos h10] at hc
    rcases List.mem_cons.mp hc with rfl | hc
    · exact ⟨0, rfl⟩
    · exact natReprL_mem n c hc
  · rw [if_neg h10] at hc
    exact natReprL_mem n c hc

/-- Every character of pad3 is a digit character. -/
theorem pad3_mem {n : Nat} {c : Char} (hc : c ∈ pad3 n) : ∃ d, c = digitChar d := by
  rw [pad3] at hc
  by_cases h10 : n < 10
  · rw [if_pos h10] at hc
    rcases List.mem_cons.mp hc with rfl | hc
    · exact ⟨0, rfl⟩
    rcases List.mem_cons.mp hc with rfl | hc
    · exact ⟨0, rfl⟩
    · exact natReprL_mem n c hc
  · rw [if_neg h10] at hc
    by_cases h100 : n < 100
    · rw [if_pos h100] at hc
      rcases List.mem_cons.mp hc with rfl | hc
      · exact ⟨0, rfl⟩
      · exact natReprL_mem n c hc
    · rw [if_neg h100] at hc
      exact natReprL_mem n c hc

/-- No character of format_timestamp is a newline (for a valid time). -/
theorem format_timestamp_no_nl (t : Rat) (h0 : 0 ≤ t) :
    ∀ c ∈ format_timestamp t, c ≠ '\n' := by
  rw [format_timestamp_eq t h0]
  intro c hc
  simp only [List.append_assoc, List.cons_append] at hc
  rcases List.mem_append.mp hc with hc | hc
  · obtain ⟨d, rfl⟩ := pad2_mem hc
    exact digitChar_ne_nl d
  rcases List.mem_cons.mp hc with rfl | hc
  · decide
  rcases List.mem_append.mp hc with hc | hc
  · obtain ⟨d, rfl⟩ := pad2_mem hc
    exact digitChar_ne_nl d
  rcases List.mem_cons.mp hc with rfl | hc
  · decide
  rcases List.mem_append.mp hc with hc | hc
  · obtain ⟨d, rfl⟩ := pad2_mem hc
    exact digitChar_ne_nl d
  rcases List.mem_cons.mp hc with rfl | hc
  · decide
  · obtain ⟨d, rfl⟩ := pad3_mem hc
    exact digitChar_ne_nl d

/-- format_timestamp starts with a digit (for a valid time). -/
theorem format_timestamp_head (t : Rat) (h0 : 0 ≤ t) (hlt : t < 360000) :
    ∃ d r, format_timestamp t = digitChar d :: r := by
  obtain ⟨h1, -, -, -⟩ := format_fields_lt t h0 hlt
  rw [format_timestamp_eq t h0]
  obtain ⟨d, r, hr⟩ := pad2_head (⌊t / 3600⌋).toNat h1
  rw [hr]
  exact ⟨d, _, rfl⟩

/-- parseTsOne reads back exactly the four fields format_timestamp wrote. -/
theorem parseTsOne_format (t : Rat) (h0 : 0 ≤ t) (hlt : t < 360000) (rest : List Char) :
    parseTsOne (format_timestamp t ++ rest) =
      some (((⌊t / 3600⌋).toNat, (⌊pymod t 3600 / 60⌋).toNat, (⌊pymod t 60⌋).toNat,
        (⌊pymod t 1 * 1000⌋).toNat), rest) := by
  obtain ⟨h1, h2, h3, h4⟩ := format_fields_lt t h0 hlt
  rw [format_timestamp_eq t h0]
  simp only [List.append_assoc, List.cons_append]
  simp [parseTsOne, parse2_pad2 h1, parse2_pad2 h2, parse2_pad2 h3, parse3_pad3 h4, expectChar]

/-- Digit characters are not regex whitespace. -/
theorem reWs_digitChar (d : Nat) : reWs (digitChar d) = false := by
  rcases d with _ | _ | _ | _ | _ | _ | _ | _ | _ | d <;> rfl

/-- The timestamp-line regex match recovers the eight formatted fields. -/
theorem matchTimestampLine_tsLine (seg : TranscriptionSegment)
    (hs0 : 0 ≤ seg.start) (hs1 : seg.start < 360000)
    (he0 : 0 ≤ seg.«end») (he1 : seg.«end» < 360000) :
    matchTimestampLine (tsLine seg) =
      some (((⌊seg.start / 3600⌋).toNat, (⌊pymod seg.start 3600 / 60⌋).toNat,
             (⌊pymod seg.start 60⌋).toNat, (⌊pymod seg.start 1 * 1000⌋).toNat),
            ((⌊seg.«end» / 3600⌋).toNat, (⌊pymod seg.«end» 3600 / 60⌋).toNat,
             (⌊pymod seg.«end» 60⌋).toNat, (⌊pymod seg.«end» 1 * 1000⌋).toNat)) := by
  have hstart := parseTsOne_format seg.start hs0 hs1
    (' ' :: '-' :: '-' :: '>' :: ' ' :: format_timestamp seg.«end»)
  have hend := parseTsOne_format seg.«end» he0 he1 []
  rw [List.append_nil] at hend
  obtain ⟨d, r, hdr⟩ := format_timestamp_head seg.«end» he0 he1
  rw [hdr] at hstart hend
  have r1 : reWs ' ' = true := rfl
  have r2 : reWs '-' = false := rfl
  rw [tsLine, hdr]
  simp [matchTimestampLine, hstart, hend, List.dropWhile, r1, r2, reWs_digitChar d,
    expectChar]

/-- getLast? through an append with a non-empty right part. -/
theorem getLast?_append_right {l l' : List Char} {d : Char} (h : l'.getLast? = some d) :
    (l ++ l').getLast? = some d := by
  rw [List.getLast?_append, h]
  rfl

/-- Splitting on newlines leaves a newline-free chunk whole. -/
theorem splitCharNl_nlfree (a : List Char) (h : ∀ c ∈ a, c ≠ '\n') :
    splitCharNl a = [a] := by
  induction a with
  | nil => rfl
  | cons c rest ih =>
    rw [splitCharNl, if_neg (h c (List.mem_cons_self c rest))]
    rw [ih (fun x hx => h x (List.mem_cons_of_mem c hx))]

/-- Splitting on newlines peels off a leading newline-free chunk. -/
theorem splitCharNl_append (a : List Char) (h : ∀ c ∈ a, c ≠ '\n') (r : List Char) :
    splitCharNl (a ++ '\n' :: r) = a :: splitCharNl r := by
  induction a with
  | nil => simp [splitCharNl]
  | cons c rest ih =>
    rw [List.cons_append, splitCharNl, if_neg (h c (List.mem_cons_self c rest))]
    rw [ih (fun x hx => h x (List.mem_cons_of_mem c hx))]

/-- dropWhile is the identity when the head fails the predicate. -/
theorem dropWhile_head_false {p : Char → Bool} {l : List Char} {c : Char}
    (h : l.head? = some c) (hc : p c = false) : l.dropWhile p = l := by
  cases l with
  | nil => rfl
  | cons x xs =>
    rw [List.head?_cons, Option.some.injEq] at h
    rw [List.dropWhile_cons, h, hc]
    simp

/-- Stripping is the identity on a list with non-whitespace endpoints. -/
theorem pyStripL_eq_self {cs : List Char} {c d : Char}
    (h1 : cs.head? = some c) (hc : pyWs c = false)
    (h2 : cs.getLast? = some d) (hd : pyWs d = false) : pyStripL cs = cs := by
  rw [pyStripL, dropWhile_head_false h1 hc,
    dropWhile_head_false (by rw [List.head?_reverse]; exact h2) hd, List.reverse_reverse]

/-- Stripping removes exactly one trailing newline from a list with
non-whitespace endpoints. -/
theorem pyStripL_append_nl {cs : List Char} {c d : Char}
    (h1 : cs.head? = some c) (hc : pyWs c = false)
    (h2 : cs.getLast? = some d) (hd : pyWs d = false) :
    pyStripL (cs ++ ['\n']) = cs := by
  have hne : cs ≠ [] := by
    intro h
    rw [h] at h1
    exact Option.noConfusion h1
  have hh : (cs ++ ['\n']).head? = some c := by
    cases cs with
    | nil => exact absurd rfl hne
    | cons x xs =>
      rw [List.head?_cons, Option.some.injEq] at h1
      rw [List.cons_append, List.head?_cons, h1]
  rw [pyStripL, dropWhile_head_false hh hc, List.reverse_append]
  show (List.dropWhile pyWs ('\n' :: cs.reverse)).reverse = cs
  rw [List.dropWhile_cons]
  have : pyWs '\n' = true := rfl
  rw [this]
  simp only [if_true]
  rw [dropWhile_head_false (by rw [List.head?_reverse]; exact h2) hd, List.reverse_reverse]

/-- splitNl2Go walks through a newline-free chunk, accumulating it. -/
theorem splitNl2Go_nlfree (xs : List Char) (h : ∀ c ∈ xs, c ≠ '\n') :
    ∀ cur cs, splitNl2Go cur 0 (xs ++ cs) = splitNl2Go (cur ++ xs) 0 cs := by
  induction xs with
  | nil => intro cur cs; simp
  | cons c rest ih =>
    intro cur cs
    rw [List.cons_append, splitNl2Go, if_neg (h c (List.mem_cons_self c rest))]
    simp only [show ¬ 2 ≤ 0 by omega, if_false, List.replicate, List.append_nil]
    rw [ih (fun x hx => h x (List.mem_cons_of_mem c hx)) (cur ++ [c]) cs]
    simp

/-- splitNl2Go absorbs a single newline followed by a regular character. -/
theorem splitNl2Go_single_nl {c : Char} (hc : c ≠ '\n') (cur cs : List Char) :
    splitNl2Go cur 0 ('\n' :: c :: cs) = splitNl2Go (cur ++ '\n' :: [c]) 0 cs := by
  rw [splitNl2Go, if_pos rfl, splitNl2Go, if_neg hc]
  simp only [show ¬ 2 ≤ 1 by omega, if_false]
  congr 1
  simp

/-- splitNl2Go walks through a whole two-newline chunk of the shape of a
formatted SRT entry. -/
theorem splitNl2Go_chunks (A B C : List Char)
    (hA : ∀ c ∈ A, c ≠ '\n') (hB : ∀ c ∈ B, c ≠ '\n') (hC : ∀ c ∈ C, c ≠ '\n')
    (hBne : B ≠ []) (hCne : C ≠ []) (cur rest : List Char) :
    splitNl2Go cur 0 ((A ++ '\n' :: B ++ '\n' :: C) ++ rest) =
      splitNl2Go (cur ++ (A ++ '\n' :: B ++ '\n' :: C)) 0 rest := by
  cases B with
  | nil => exact absurd rfl hBne
  | cons b B' =>
    cases C with
    | nil => exact absurd rfl hCne
    | cons t C' =>
      simp only [List.append_assoc, List.cons_append]
      rw [splitNl2Go_nlfree A hA cur]
      rw [splitNl2Go_single_nl (hB b (List.mem_cons_self b B')) (cur ++ A)]
      rw [splitNl2Go_nlfree B' (fun x hx => hB x (List.mem_cons_of_mem b hx))]
      rw [splitNl2Go_single_nl (hC t (List.mem_cons_self t C'))]
      rw [splitNl2Go_nlfree C' (fun x hx => hC x (List.mem_cons_of_mem t hx))]
      simp

/-- intercalate over a singleton. -/
theorem intercalate_single (sep a : List Char) : List.intercalate sep [a] = a := by
  simp [List.intercalate, List.intersperse]

/-- intercalate over a cons with a non-empty tail. -/
theorem intercalate_cons_ne (sep a : List Char) (l : List (List Char)) (h : l ≠ []) :
    List.intercalate sep (a :: l) = a ++ sep ++ List.intercalate sep l := by
  cases l with
  | nil => exact absurd rfl h
  | cons b l' =>
    show List.join (List.intersperse sep (a :: b :: l')) = _
    rw [show List.intersperse sep (a :: b :: l') =
      a :: sep :: List.intersperse sep (b :: l') from rfl]
    simp [List.intercalate, List.append_assoc]

/-- The decimal representation starts with a digit character. -/
theorem natReprL_head (n : Nat) : ∃ d r, natReprL n = digitChar d :: r := by
  cases hA : natReprL n with
  | nil => exact absurd hA (natReprL_ne_nil n)
  | cons c r =>
    obtain ⟨d, rfl⟩ := natReprL_mem n c (hA ▸ List.mem_cons_self c r)
    exact ⟨d, r, rfl⟩

/-- The decimal representation contains no newline. -/
theorem natReprL_no_nl (n : Nat) : ∀ c ∈ natReprL n, c ≠ '\n' := by
  intro c hc
  obtain ⟨d, rfl⟩ := natReprL_mem n c hc
  exact digitChar_ne_nl d

/-- The timestamp line contains no newline. -/
theorem tsLine_no_nl (seg : TranscriptionSegment) (hs0 : 0 ≤ seg.start)
    (he0 : 0 ≤ seg.«end») : ∀ c ∈ tsLine seg, c ≠ '\n' := by
  intro c hc
  rw [tsLine] at hc
  rcases List.mem_append.mp hc with hc | hc
  · exact format_timestamp_no_nl seg.start hs0 c hc
  rcases List.mem_cons.mp hc with rfl | hc
  · decide
  rcases List.mem_cons.mp hc with rfl | hc
  · decide
  rcases List.mem_cons.mp hc with rfl | hc
  · decide
  rcases List.mem_cons.mp hc with rfl | hc
  · decide
  rcases List.mem_cons.mp hc with rfl | hc
  · decide
  · exact format_timestamp_no_nl seg.«end» he0 c hc

/-- The timestamp line starts with a digit character. -/
theorem tsLine_head (seg : TranscriptionSegment) (hs0 : 0 ≤ seg.start)
    (hs1 : seg.start < 360000) : ∃ d r, tsLine seg = digitChar d :: r := by
  obtain ⟨d, r, hr⟩ := format_timestamp_head seg.start hs0 hs1
  rw [tsLine, hr]
  exact ⟨d, _, rfl⟩

/-- Unpacking the okText conditions. -/
theorem okText_facts {cs : List Char} (h : okText cs = true) :
    ∃ c d, cs.head? = some c ∧ pyWs c = false ∧ cs.getLast? = some d ∧
      pyWs d = false ∧ (∀ x ∈ cs, x ≠ '\n') := by
  cases cs with
  | nil => exact absurd h (by simp [okText])
  | cons c rest =>
    obtain ⟨d, hd⟩ : ∃ d, (c :: rest).getLast? = some d := by
      cases hg : (c :: rest).getLast? with
      | none => exact absurd (List.getLast?_eq_none.mp hg) (List.cons_ne_nil c rest)
      | some d => exact ⟨d, rfl⟩
    unfold okText at h
    rw [hd] at h
    simp only [Bool.and_eq_true, Bool.not_eq_true', List.all_eq_true, bne_iff_ne] at h
    exact ⟨c, d, rfl, h.1.1, hd, h.1.2, h.2⟩

/-- Unpacking segment validity. -/
theorem validSegB_facts {seg : TranscriptionSegment} (h : validSegB seg = true) :
    okText seg.text.data = true ∧ 0 ≤ seg.start ∧ seg.start < 360000 ∧
      0 ≤ seg.«end» ∧ seg.«end» < 360000 := by
  rw [validSegB] at h
  simp only [Bool.and_eq_true, decide_eq_true_eq] at h
  exact ⟨h.1.1.1.1.1, h.1.1.1.1.2, h.1.1.1.2, h.1.1.2, h.1.2⟩

/-- The last character of a formatted entry is the last character of its
text. -/
theorem entryCore_getLast (i : Nat) (seg : TranscriptionSegment) {d : Char}
    (hd : seg.text.data.getLast? = some d) : (entryCore i seg).getLast? = some d := by
  rw [entryCore]
  have h1 : ('\n' :: seg.text.data).getLast? = some d := by
    show ((['\n'] : List Char) ++ seg.text.data).getLast? = some d
    exact getLast?_append_right hd
  exact getLast?_append_right h1

/-- A formatted entry starts with a digit character. -/
theorem entryCore_head (i : Nat) (seg : TranscriptionSegment) :
    ∃ d r, entryCore i seg = digitChar d :: r := by
  obtain ⟨d, r, hr⟩ := natReprL_head i
  rw [entryCore, hr]
  exact ⟨d, _, rfl⟩

/-- String extensionality on the character list. -/
theorem string_mk_data (s : String) : String.mk s.data = s := rfl

/-- parseSrtEntry recovers a segment from its formatted entry: the text comes
back unchanged and each boundary is the formatted fields' value. -/
theorem parseSrtEntry_entryCore (i : Nat) (seg : TranscriptionSegment)
    (hv : validSegB seg = true) :
    parseSrtEntry (entryCore i seg) =
      some { start := tsToSeconds ((⌊seg.start / 3600⌋).toNat,
               (⌊pymod seg.start 3600 / 60⌋).toNat, (⌊pymod seg.start 60⌋).toNat,
               (⌊pymod seg.start 1 * 1000⌋).toNat),
             «end» := tsToSeconds ((⌊seg.«end» / 3600⌋).toNat,
               (⌊pymod seg.«end» 3600 / 60⌋).toNat, (⌊pymod seg.«end» 60⌋).toNat,
               (⌊pymod seg.«end» 1 * 1000⌋).toNat),
             text := seg.text } := by
  obtain ⟨hok, hs0, hs1, he0, he1⟩ := validSegB_facts hv
  obtain ⟨tc, td, hth, htws, htl, htlws, htnl⟩ := okText_facts hok
  obtain ⟨d0, r0, hA⟩ := natReprL_head i
  have hhead : (entryCore i seg).head? = some (digitChar d0) := by
    rw [entryCore, hA]
    rfl
  have hstrip : pyStripL (entryCore i seg) = entryCore i seg :=
    pyStripL_eq_self hhead (pyWs_digitChar d0) (entryCore_getLast i seg htl) htlws
  have hlines : splitCharNl (entryCore i seg) =
      [natReprL i, tsLine seg, seg.text.data] := by
    rw [entryCore]
    rw [show natReprL i ++ '\n' :: tsLine seg ++ '\n' :: seg.text.data =
        natReprL i ++ '\n' :: (tsLine seg ++ '\n' :: seg.text.data) from by simp]
    rw [splitCharNl_append _ (natReprL_no_nl i)]
    rw [splitCharNl_append _ (tsLine_no_nl seg hs0 he0)]
    rw [splitCharNl_nlfree _ htnl]
  rw [parseSrtEntry]
  simp only [hstrip, hlines]
  simp only [List.length_cons, List.length_nil, show ¬ (2 + 1 < 3) by omega, if_false,
    List.get?, matchTimestampLine_tsLine seg hs0 hs1 he0 he1, List.drop,
    intercalate_single, string_mk_data]

/-- A formatted entry is its core plus the trailing newline. -/
theorem format_segment_eq_core (i : Nat) (seg : TranscriptionSegment) :
    format_segment_as_srt i seg = entryCore i seg ++ ['\n'] := by
  simp [format_segment_as_srt, entryCore, tsLine, List.append_assoc]

/-- Joining the entries with single newlines equals joining the cores with
blank lines, plus one trailing newline. -/
theorem entries_cores : ∀ (rest : List TranscriptionSegment) (s : TranscriptionSegment)
    (i : Nat),
    List.intercalate ['\n'] (srtEntries i (s :: rest)) =
      List.intercalate ['\n', '\n'] (coresFrom i (s :: rest)) ++ ['\n'] := by
  intro rest
  induction rest with
  | nil =>
    intro s i
    show List.intercalate ['\n'] [format_segment_as_srt i s] = _
    rw [intercalate_single, format_segment_eq_core]
    show _ = List.intercalate ['\n', '\n'] [entryCore i s] ++ ['\n']
    rw [intercalate_single]
  | cons s' rest' ih =>
    intro s i
    show List.intercalate ['\n'] (format_segment_as_srt i s :: srtEntries (i + 1) (s' :: rest')) = _
    rw [intercalate_cons_ne _ _ _ (by show _ :: _ ≠ []; exact List.cons_ne_nil _ _),
      ih s' (i + 1), format_segment_eq_core]
    show _ = List.intercalate ['\n', '\n'] (entryCore i s :: coresFrom (i + 1) (s' :: rest')) ++ ['\n']
    rw [intercalate_cons_ne _ _ _ (by show _ :: _ ≠ []; exact List.cons_ne_nil _ _)]
    simp [List.append_assoc]

/-- intercalate with a blank-line separator as a flat join. -/
theorem intercalate_nn_eq : ∀ (l : List (List Char)) (a : List Char),
    List.intercalate ['\n', '\n'] (a :: l) =
      a ++ (l.map (fun core => '\n' :: '\n' :: core)).flatten := by
  intro l
  induction l with
  | nil => intro a; rw [intercalate_single]; simp
  | cons b l' ih =>
    intro a
    rw [intercalate_cons_ne _ _ _ (List.cons_ne_nil b l'), ih b]
    simp [List.append_assoc]

/-- splitNl2Go consumes a blank-line separated run of entry cores, emitting
the accumulated piece and then each core. -/
theorem splitNl2Go_sepchain : ∀ (segs : List TranscriptionSegment) (i : Nat)
    (cur : List Char), segs.all validSegB = true →
    splitNl2Go cur 0 (((coresFrom i segs).map (fun core => '\n' :: '\n' :: core)).flatten) =
      cur :: coresFrom i segs := by
  intro segs
  induction segs with
  | nil =>
    intro i cur _
    show splitNl2Go cur 0 [] = [cur]
    rw [splitNl2Go]
    simp
  | cons s rest ih =>
    intro i cur hall
    rw [List.all_cons, Bool.and_eq_true] at hall
    obtain ⟨d0, r0, hA⟩ := natReprL_head i
    have hcore : entryCore i s = digitChar d0 :: (r0 ++ ('\n' :: tsLine s) ++ ('\n' :: s.text.data)) := by
      rw [entryCore, hA]
      simp [List.append_assoc]
    obtain ⟨hok, hs0, hs1, he0, he1⟩ := validSegB_facts hall.1
    obtain ⟨tc, td, hth, htws, htl, htlws, htnl⟩ := okText_facts hok
    obtain ⟨tb, rb, htsl⟩ := tsLine_head s hs0 hs1
    show splitNl2Go cur 0 (('\n' :: '\n' :: entryCore i s) ++
      ((coresFrom (i + 1) rest).map (fun core => '\n' :: '\n' :: core)).flatten) = _
    rw [List.cons_append, List.cons_append]
    rw [splitNl2Go, if_pos rfl, splitNl2Go, if_pos rfl]
    rw [show entryCore i s ++ ((coresFrom (i + 1) rest).map
        (fun core => '\n' :: '\n' :: core)).flatten =
      digitChar d0 :: ((r0 ++ '\n' :: tsLine s ++ '\n' :: s.text.data) ++
        ((coresFrom (i + 1) rest).map (fun core => '\n' :: '\n' :: core)).flatten) from by
      rw [hcore]; simp [List.append_assoc]]
    rw [splitNl2Go, if_neg (digitChar_ne_nl d0)]
    simp only [show (2 ≤ 2) = True by simp, if_true]
    rw [splitNl2Go_chunks r0 (tsLine s) s.text.data
      (fun c hc => natReprL_no_nl i c (hA ▸ List.mem_cons_of_mem _ hc))
      (tsLine_no_nl s hs0 he0) htnl
      (by rw [htsl]; exact List.cons_ne_nil _ _)
      (by intro hnil; rw [hnil] at hth; exact Option.noConfusion hth)]
    rw [ih (i + 1) _ hall.2]
    show (cur :: _ :: coresFrom (i + 1) rest : List (List Char)) = cur :: entryCore i s :: coresFrom (i + 1) rest
    rw [hcore]
    simp [List.append_assoc]

/-- Splitting the blank-line joined cores recovers exactly the cores. -/
theorem splitNl2_cores (s : TranscriptionSegment) (rest : List TranscriptionSegment)
    (i : Nat) (hall : (s :: rest).all validSegB = true) :
    splitNl2 (List.intercalate ['\n', '\n'] (coresFrom i (s :: rest))) =
      coresFrom i (s :: rest) := by
  rw [List.all_cons, Bool.and_eq_true] at hall
  show splitNl2 (List.intercalate ['\n', '\n'] (entryCore i s :: coresFrom (i + 1) rest)) = _
  rw [intercalate_nn_eq]
  rw [splitNl2]
  obtain ⟨hok, hs0, hs1, he0, he1⟩ := validSegB_facts hall.1
  obtain ⟨tc, td, hth, htws, htl, htlws, htnl⟩ := okText_facts hok
  obtain ⟨tb, rb, htsl⟩ := tsLine_head s hs0 hs1
  rw [show entryCore i s ++ ((coresFrom (i + 1) rest).map
      (fun core => '\n' :: '\n' :: core)).flatten =
    (natReprL i ++ '\n' :: tsLine s ++ '\n' :: s.text.data) ++
      ((coresFrom (i + 1) rest).map (fun core => '\n' :: '\n' :: core)).flatten from rfl]
  rw [splitNl2Go_chunks (natReprL i) (tsLine s) s.text.data (natReprL_no_nl i)
    (tsLine_no_nl s hs0 he0) htnl
    (by rw [htsl]; exact List.cons_ne_nil _ _)
    (by intro hnil; rw [hnil] at hth; exact Option.noConfusion hth)]
  rw [splitNl2Go_sepchain rest (i + 1) _ hall.2]
  rfl

/-- The blank-line joined cores start with a digit character. -/
theorem head_intercalate_cores (i : Nat) (s : TranscriptionSegment)
    (rest : List TranscriptionSegment) :
    ∃ d, (List.intercalate ['\n', '\n'] (coresFrom i (s :: rest))).head? =
      some (digitChar d) := by
  obtain ⟨d0, r0, hc⟩ := entryCore_head i s
  refine ⟨d0, ?_⟩
  show (List.intercalate ['\n', '\n'] (entryCore i s :: coresFrom (i + 1) rest)).head? = _
  rw [intercalate_nn_eq, hc]
  rfl

/-- The blank-line joined cores end with the last text's non-whitespace
character. -/
theorem getLast_intercalate_cores : ∀ (rest : List TranscriptionSegment)
    (s : TranscriptionSegment) (i : Nat), (s :: rest).all validSegB = true →
    ∃ d, (List.intercalate ['\n', '\n'] (coresFrom i (s :: rest))).getLast? = some d ∧
      pyWs d = false := by
  intro rest
  induction rest with
  | nil =>
    intro s i hall
    rw [List.all_cons, Bool.and_eq_true] at hall
    obtain ⟨hok, _, _, _, _⟩ := validSegB_facts hall.1
    obtain ⟨tc, td, hth, htws, htl, htlws, htnl⟩ := okText_facts hok
    refine ⟨td, ?_, htlws⟩
    show (List.intercalate ['\n', '\n'] [entryCore i s]).getLast? = _
    rw [intercalate_single]
    exact entryCore_getLast i s htl
  | cons s' rest' ih =>
    intro s i hall
    rw [List.all_cons, Bool.and_eq_true] at hall
    obtain ⟨d, hd, hdws⟩ := ih s' (i + 1) hall.2
    refine ⟨d, ?_, hdws⟩
    show (List.intercalate ['\n', '\n']
      (entryCore i s :: coresFrom (i + 1) (s' :: rest'))).getLast? = _
    rw [intercalate_cons_ne _ _ _ (by show _ :: _ ≠ []; exact List.cons_ne_nil _ _)]
    exact getLast?_append_right hd

/-- Parsing the cores entrywise recovers each segment up to the timestamp
rounding. -/
theorem forall2_coresFrom : ∀ (segs : List TranscriptionSegment) (i : Nat),
    segs.all validSegB = true →
    List.Forall₂ (fun a b => b.text = a.text ∧ |b.start - a.start| ≤ 1 / 100 ∧
      |b.«end» - a.«end»| ≤ 1 / 100) segs ((coresFrom i segs).filterMap parseSrtEntry) := by
  intro segs
  induction segs with
  | nil => intro i _; exact List.Forall₂.nil
  | cons s rest ih =>
    intro i hall
    rw [List.all_cons, Bool.and_eq_true] at hall
    obtain ⟨hok, hs0, hs1, he0, he1⟩ := validSegB_facts hall.1
    show List.Forall₂ _ (s :: rest)
      ((entryCore i s :: coresFrom (i + 1) rest).filterMap parseSrtEntry)
    rw [List.filterMap_cons, parseSrtEntry_entryCore i s hall.1]
    refine List.Forall₂.cons ⟨rfl, ?_, ?_⟩ (ih (i + 1) hall.2)
    · obtain ⟨hb1, hb2⟩ := tsToSeconds_format s.start hs0
      have hnum : (1 : ℚ) / 1000 < 1 / 100 := by norm_num
      rw [abs_le]
      constructor <;> simp only [] <;> linarith
    · obtain ⟨hb1, hb2⟩ := tsToSeconds_format s.«end» he0
      have hnum : (1 : ℚ) / 1000 < 1 / 100 := by norm_num
      rw [abs_le]
      constructor <;> simp only [] <;> linarith

/-- Claim C4, counterexample: a segment with empty text is dropped by
parse_srt (its entry has fewer than three lines after splitting), so the
round trip does not preserve the number of segments for every valid input. -/
theorem c4_counterexample :
    (parse_srt (format_as_srt [{ start := 0, «end» := 5, text := "" }])).length = 0 ∧
    ([{ start := 0, «end» := 5, text := "" }] : List TranscriptionSegment).length = 1 :=
  ⟨by with_unfolding_all rfl, rfl⟩

/-- Claim C4, amended: for segments whose text is non-empty, single-line and
without leading or trailing whitespace, and whose boundaries are
non-negative and below 100 hours, parse_srt(format_as_srt(segments)) yields
segmentwise the same text and boundaries within 10 milliseconds (in fact
within one millisecond) — in particular the same number of segments. -/
theorem c4_roundtrip_amended (segs : List TranscriptionSegment)
    (h : segs.all validSegB = true) :
    List.Forall₂ (fun a b => b.text = a.text ∧ |b.start - a.start| ≤ 1 / 100 ∧
      |b.«end» - a.«end»| ≤ 1 / 100) segs (parse_srt (format_as_srt segs)) := by
  cases segs with
  | nil =>
    have : parse_srt (format_as_srt []) = [] := rfl
    rw [this]
    exact List.Forall₂.nil
  | cons s rest =>
    show List.Forall₂ _ (s :: rest)
      ((splitNl2 (pyStripL (format_as_srt (s :: rest)).data)).filterMap parseSrtEntry)
    have hdata : (format_as_srt (s :: rest)).data =
        List.intercalate ['\n'] (srtEntries 1 (s :: rest)) := rfl
    obtain ⟨d0, hh⟩ := head_intercalate_cores 1 s rest
    obtain ⟨d, hl, hlws⟩ := getLast_intercalate_cores rest s 1 h
    rw [hdata, entries_cores rest s 1,
      pyStripL_append_nl hh (pyWs_digitChar d0) hl hlws,
      splitNl2_cores s rest 1 h]
    exact forall2_coresFrom (s :: rest) 1 h

/-- Claim C4, witness: the spec's end-to-end example round-trips. -/
theorem c4_roundtrip_amended_witness :
    List.Forall₂ (fun (a b : TranscriptionSegment) =>
        b.text = a.text ∧ |b.start - a.start| ≤ 1 / 100 ∧ |b.«end» - a.«end»| ≤ 1 / 100)
      ([{ start := 0, «end» := 11 / 2, text := "hello" },
        { start := 11 / 2, «end» := 123 / 10, text := "world" }] : List TranscriptionSegment)
      (parse_srt (format_as_srt
        ([{ start := 0, «end» := 11 / 2, text := "hello" },
          { start := 11 / 2, «end» := 123 / 10, text := "world" }] : List TranscriptionSegment))) :=
  c4_roundtrip_amended
    ([{ start := 0, «end» := 11 / 2, text := "hello" },
      { start := 11 / 2, «end» := 123 / 10, text := "world" }] : List TranscriptionSegment)
    (by with_unfolding_all rfl)

end VideoSummarizer
